import Mathlib

/-!
Verification of the laboratory result generator (lab_generator.py).

The Python module is shallowly embedded below. Machine floats are modelled
by rationals; every random draw of the program (the skip coin, the 1-or-2
choice, the panel sample, the per-test distribution draws and the Dirichlet
vector) is supplied explicitly through a `RandOracle`, so each function is a
pure function of its inputs and the draw outcomes, exactly as the source is
a pure function of its inputs and the shared random stream. Python dicts are
modelled as association lists with in-place update and insertion order, the
dynamic float(...) coercion failures are modelled by error results, and the
numeric rounding of round(x, 2) and np.round is modelled by round-half-even
on rationals.
-/

namespace Callistemon

/-! ## Python dict operations on association lists -/

/-- Lookup in a Python dict modelled as an association list. -/
def dictGet {α : Type} : List (String × α) → String → Option α
  | [], _ => none
  | (k', v) :: rest, k => if k = k' then some v else dictGet rest k

/-- Python dict assignment: update the key in place if present, else append. -/
def dictSet {α : Type} : List (String × α) → String → α → List (String × α)
  | [], k, v => [(k, v)]
  | (k', v') :: rest, k, v =>
    if k = k' then (k, v) :: rest else (k', v') :: dictSet rest k v

/-- Python del: remove the (first) binding of the key. -/
def dictDel {α : Type} : List (String × α) → String → List (String × α)
  | [], _ => []
  | (k', v') :: rest, k => if k = k' then rest else (k', v') :: dictDel rest k

/-- The keys of the dict, in order. -/
def dictKeys {α : Type} (d : List (String × α)) : List String := d.map Prod.fst

/-- Python `a.get(x, b.get(y))` fallback chaining on optional values. -/
def optOr (a b : Option ℚ) : Option ℚ :=
  match a with
  | some x => some x
  | none => b

/-! ## Python substring test -/

/-- Substring test on character lists, the semantics of Python `needle in hay`. -/
def listSub (hay needle : List Char) : Bool :=
  match hay with
  | [] => needle.isEmpty
  | _ :: t => needle.isPrefixOf hay || listSub t needle

/-- Python `needle in hay` on strings. -/
def strContains (hay needle : String) : Bool := listSub hay.toList needle.toList

/-- Python str.lower(): ASCII lowercasing, the only case arising in the
profile strings. -/
def strLower (s : String) : String := ⟨s.data.map Char.toLower⟩

/-- Decidable equality of Except results, used to evaluate the embedded
functions at concrete inputs. -/
instance {ε α : Type} [DecidableEq ε] [DecidableEq α] :
    DecidableEq (Except ε α) := fun x y =>
  match x, y with
  | .error a, .error b =>
    if h : a = b then isTrue (by rw [h])
    else isFalse (fun hc => h (Except.error.inj hc))
  | .ok a, .ok b =>
    if h : a = b then isTrue (by rw [h])
    else isFalse (fun hc => h (Except.ok.inj hc))
  | .error _, .ok _ => isFalse (fun hc => Except.noConfusion hc)
  | .ok _, .error _ => isFalse (fun hc => Except.noConfusion hc)

/-! ## Rounding: Python round(x, 2) and np.round(x, 2), modelled exactly
as round-half-to-even on rationals. -/

/-- Round half to even to an integer, the tie-break used by Python round
and by np.round. -/
def roundHalfEven (x : ℚ) : ℤ :=
  if x - ⌊x⌋ < 1 / 2 then ⌊x⌋
  else if 1 / 2 < x - ⌊x⌋ then ⌊x⌋ + 1
  else if Even ⌊x⌋ then ⌊x⌋ else ⌊x⌋ + 1

/-- round(x, 2): round to two decimal places. -/
def round2 (q : ℚ) : ℚ := (roundHalfEven (q * 100) : ℚ) / 100

/-- A rational that is a whole number of hundredths, the form of every
value returned by round(x, 2). -/
def isCent (q : ℚ) : Prop := ∃ k : ℤ, q = (k : ℚ) / 100

/-- np.clip(x, lo, hi) = min(max(x, lo), hi). -/
def pyClip (x lo hi : ℚ) : ℚ := min (max x lo) hi

/-! ## Error values raised by the module -/

/-- The failure modes of the generator: ValueError for a uniform call with
a missing bound, ValueError for an unknown distribution name, TypeError
from float(...) applied to a dict, ValueError from random.sample when the
requested size exceeds the population, and ValueError for a condition that
is absent from the profile store. -/
inductive LabErr where
  | missingBound
  | unsupportedDist
  | typeErr
  | sampleTooLarge
  | unknownCondition
deriving DecidableEq, Repr

/-! ## The profile data model (the JSON document) -/

/-- A value found under a sex key of sex_adjustment: either a bare number
or a structured object (a JSON dict) carrying an optional multiplier and
an optional sd_multiplier. -/
inductive SexEntry where
  | num (q : ℚ)
  | obj (multiplier : Option ℚ) (sd_multiplier : Option ℚ)
deriving DecidableEq

/-- Python float(...) applied to a sex-adjustment entry: a number converts,
a dict raises TypeError (modelled as none). -/
def pyFloat : SexEntry → Option ℚ
  | .num q => some q
  | .obj _ _ => none

/-- One age band of an age_adjustment band list. min_age and max_age are
read with direct indexing in the source, so they are required. -/
structure AgeBand where
  min_age : ℚ
  max_age : ℚ
  mean_multiplier : Option ℚ := none
  sd_multiplier : Option ℚ := none
deriving DecidableEq

/-- age_adjustment: a dict containing a slope key, an ordered band list, or
a dict without a slope key (which the source leaves unapplied). -/
inductive AgeAdj where
  | slopeForm (slope : ℚ) (ref_age : Option ℚ)
  | bands (bs : List AgeBand)
  | inert
deriving DecidableEq

/-- One lifestyle factor entry. -/
structure FacInfo where
  mean_multiplier : Option ℚ := none
  sd_multiplier : Option ℚ := none
  exceptions : Option (List (String × ℚ)) := none
deriving DecidableEq

/-- One test specification of the profile document. -/
structure TestSpec where
  distribution : Option String := none
  mean : ℚ := 0
  sd : Option ℚ := none
  min : Option ℚ := none
  min_val : Option ℚ := none
  max : Option ℚ := none
  max_val : Option ℚ := none
  sex_adjustment : Option (List (String × SexEntry)) := none
  age_adjustment : Option AgeAdj := none
  lifestyle : Option (List (String × FacInfo)) := none
deriving DecidableEq

/-- The differential_props metadata: five named base proportions. -/
structure DiffProps where
  neutrophils : Option ℚ := none
  lymphocytes : Option ℚ := none
  monocytes : Option ℚ := none
  eosinophils : Option ℚ := none
  basophils : Option ℚ := none
deriving DecidableEq

/-- The value stored under a differential_props key: a dict of proportions
or some non-dict value. -/
inductive DiffPropsVal where
  | dict (p : DiffProps)
  | nonDict
deriving DecidableEq

/-- One entry of a panel mapping: a test specification, or (under the
differential_props key) the metadata value. -/
inductive EntryVal where
  | test (t : TestSpec)
  | metaVal (d : DiffPropsVal)
deriving DecidableEq

/-- A cell of the per-panel results dict: a sampled number, Python None, or
the copied differential metadata. -/
inductive Cell where
  | val (q : ℚ)
  | null
  | metaCell (d : DiffPropsVal)
deriving DecidableEq

/-- A value of the final flat row: a results cell, a string (Sex and
Condition), or an integer (Age). -/
inductive RVal where
  | cell (c : Cell)
  | str (s : String)
  | int (z : ℤ)
deriving DecidableEq

/-- The profile of one condition: its ordered panels mapping. -/
structure CondProfile where
  panels : List (String × List (String × EntryVal))
deriving DecidableEq

/-! ## sample_value -/

/-- clip into the bounds when both are present, then round(val, 2). -/
def clampRound (minO maxO : Option ℚ) (v : ℚ) : ℚ :=
  match minO, maxO with
  | some a, some b => round2 (pyClip v a b)
  | _, _ => round2 v

/-- sample_value. The raw draw of the selected distribution family is the
oracle argument; the function then applies the bound clipping and the final
rounding of the source, and raises the two ValueError cases of the source.
The mean and sd parameters only shape the random draw, which the oracle
supplies, so they do not otherwise enter the result. -/
def sample_value (distribution : Option String) (mean sd : ℚ)
    (minO maxO : Option ℚ) (draw : ℚ) : Except LabErr ℚ :=
  if strLower (distribution.getD "normal") = "normal" then
    .ok (clampRound minO maxO draw)
  else if strLower (distribution.getD "normal") = "lognormal" then
    .ok (clampRound minO maxO draw)
  else if strLower (distribution.getD "normal") = "uniform" then
    match minO, maxO with
    | some _, some _ => .ok (clampRound minO maxO draw)
    | _, _ => .error .missingBound
  else if strLower (distribution.getD "normal") = "gamma" then
    .ok (clampRound minO maxO draw)
  else .error .unsupportedDist

/-! ## apply_sex_age_lifestyle -/

/-- The sex_adjustment step. The source multiplies the mean by
float(mults.get(sex_key, mults.get("other", 1.0))); float of a dict entry
raises TypeError, modelled by none. When the sex-key entry is a dict the
source would additionally multiply sd by its sd_multiplier. -/
def sexStep (mean sd : ℚ) (t : TestSpec) (sex_key : String) : Option (ℚ × ℚ) :=
  match t.sex_adjustment with
  | none => some (mean, sd)
  | some mults =>
    let entry := (dictGet mults sex_key).getD ((dictGet mults "other").getD (.num 1))
    match pyFloat entry with
    | none => none
    | some m =>
      let sd' := match dictGet mults sex_key with
        | some (.obj _ sdm) => sd * sdm.getD 1
        | _ => sd
      some (mean * m, sd')

/-- The band-list form of the age adjustment: apply the first band whose
closed interval contains the age, then stop. -/
def bandApply : List AgeBand → ℤ → ℚ → ℚ → ℚ × ℚ
  | [], _, m, s => (m, s)
  | b :: rest, age, m, s =>
    if b.min_age ≤ (age : ℚ) ∧ (age : ℚ) ≤ b.max_age then
      (m * b.mean_multiplier.getD 1, s * b.sd_multiplier.getD 1)
    else bandApply rest age m s

/-- The age_adjustment step: the slope form scales mean and sd by
1 + slope * max(0, age - ref_age); the band form applies the first
matching band; a slope-free dict is left unapplied. -/
def applyAgeAdj (adjO : Option AgeAdj) (age : ℤ) (mean sd : ℚ) : ℚ × ℚ :=
  match adjO with
  | none => (mean, sd)
  | some (.slopeForm slope refO) =>
    let ref := refO.getD 40
    let factor := 1 + slope * max 0 ((age : ℚ) - ref)
    (mean * factor, sd * factor)
  | some (.bands bs) => bandApply bs age mean sd
  | some .inert => (mean, sd)

/-- The lifestyle step: fold the patient factors in caller order, scaling
by the mean and sd multipliers of each factor present in the spec. The
per-factor exceptions sub-map is inspected by the source only in a
pass-statement branch, so it does not enter the computation. -/
def lifestyleStep (mean sd : ℚ) (t : TestSpec) (lifestyle : List String) : ℚ × ℚ :=
  match t.lifestyle with
  | none => (mean, sd)
  | some lmap =>
    lifestyle.foldl (fun p fac =>
      match dictGet lmap fac with
      | none => p
      | some fi => (p.1 * fi.mean_multiplier.getD 1, p.2 * fi.sd_multiplier.getD 1))
      (mean, sd)

/-- apply_sex_age_lifestyle: sex, then age, then lifestyle. The result is
none when the sex step raises TypeError. -/
def apply_sex_age_lifestyle (mean sd : ℚ) (t : TestSpec) (sex : String)
    (age : ℤ) (lifestyle : List String) : Option (ℚ × ℚ) :=
  match sexStep mean sd t (strLower (if sex = "" then "other" else sex)) with
  | none => none
  | some (m1, s1) =>
    match applyAgeAdj t.age_adjustment age m1 s1 with
    | (m2, s2) => some (lifestyleStep m2 s2 t lifestyle)

/-- The fallback sd when the spec omits sd: max(0.01, 0.1 * mean). -/
def defaultSd (mean : ℚ) : ℚ := max (1 / 100) (mean / 10)

/-! ## The random oracle of one generation call -/

/-- The outcomes of every random draw made during one generate_lab_results
call. skipCoin is the comparison random.random() < missing_panel_prob,
pickTwo selects 2 rather than 1 in random.choice([1, 2]), skipPick is the
outcome of random.sample over the panel names, draws is the stream of raw
distribution draws consumed by successive fresh sample_value calls, and
dirichlet maps the concentration vector to the sampled proportion vector. -/
structure RandOracle where
  skipCoin : Bool
  pickTwo : Bool
  skipPick : List String
  draws : ℕ → ℚ
  dirichlet : (Fin 5 → ℚ) → Fin 5 → ℚ

/-- The panel omission decision: with the coin set, draw 1 or 2 and sample
that many panels; random.sample raises ValueError when the count exceeds
the population size. -/
def panelsToSkip (panel_names : List String) (r : RandOracle) :
    Except LabErr (List String) :=
  if r.skipCoin then
    let k := if r.pickTwo then 2 else 1
    if panel_names.length < k then .error .sampleTooLarge else .ok r.skipPick
  else .ok []

/-! ## The first pass: per-test adjustment, sampling and value sharing -/

/-- The cell stored for a differential_props entry: the value is copied
verbatim; only a dict value is later usable as metadata. -/
def metaCellOf : EntryVal → Cell
  | .metaVal d => .metaCell d
  | .test _ => .metaCell .nonDict

/-- The per-test loop of one panel. Metadata keys are copied; every other
test first has its adjusted mean and sd computed, then reuses the shared
value when its name was already sampled in this call, else consumes one
draw through sample_value and caches the result under its name. -/
def processTests (sex : String) (age : ℤ) (lifestyle : List String)
    (draws : ℕ → ℚ) :
    List (String × EntryVal) → List (String × Cell) → List (String × ℚ) → ℕ →
    Except LabErr (List (String × Cell) × List (String × ℚ) × ℕ)
  | [], out, shared, n => .ok (out, shared, n)
  | (test_name, ev) :: rest, out, shared, n =>
    if test_name = "differential_props" then
      processTests sex age lifestyle draws rest
        (dictSet out test_name (metaCellOf ev)) shared n
    else
      match ev with
      | .metaVal _ => .error .typeErr
      | .test t =>
        match apply_sex_age_lifestyle t.mean (t.sd.getD (defaultSd t.mean)) t
            sex age lifestyle with
        | none => .error .typeErr
        | some (adj_mean, adj_sd) =>
          match dictGet shared test_name with
          | some v =>
            processTests sex age lifestyle draws rest
              (dictSet out test_name (.val v)) shared n
          | none =>
            match sample_value t.distribution adj_mean adj_sd
                (optOr t.min t.min_val) (optOr t.max t.max_val) (draws n) with
            | .error e => .error e
            | .ok v =>
              processTests sex age lifestyle draws rest
                (dictSet out test_name (.val v)) (dictSet shared test_name v) (n + 1)

/-- The panel loop of the first pass: a skipped panel stores None, every
other panel stores its per-test results, threading the shared-value cache
and the draw counter. -/
def firstPass (sex : String) (age : ℤ) (lifestyle : List String)
    (draws : ℕ → ℚ) :
    List (String × List (String × EntryVal)) → List String →
    List (String × Option (List (String × Cell))) → List (String × ℚ) → ℕ →
    Except LabErr
      (List (String × Option (List (String × Cell))) × List (String × ℚ) × ℕ)
  | [], _, results, shared, n => .ok (results, shared, n)
  | (panel, tests) :: rest, skips, results, shared, n =>
    if panel ∈ skips then
      firstPass sex age lifestyle draws rest skips
        (dictSet results panel none) shared n
    else
      match processTests sex age lifestyle draws tests [] shared n with
      | .error e => .error e
      | .ok (panel_out, shared', n') =>
        firstPass sex age lifestyle draws rest skips
          (dictSet results panel (some panel_out)) shared' n'

/-! ## The differential reconciler -/

/-- The FBC naming heuristic of the source. -/
def isFbcName (pn : String) : Bool :=
  let low := strLower pn
  strContains low "fbc" || (strContains low "full" && strContains low "blood") ||
    strContains low "fullblood"

/-- The first panel name matching the FBC heuristic. -/
def detectFbc : List String → Option String
  | [] => none
  | pn :: rest => if isFbcName pn then some pn else detectFbc rest

/-- The alias list checked for the total count key, kept verbatim from the
source, duplicate entry included. -/
def wbcCandidates : List String :=
  ["WBC (×10^9/L)", "WBC (10^9/L)", "WBC", "WBC (×10^9/L)", "WBC (x10^9/L)"]

/-- Locate the total count key: the first known alias present, else the
first key containing wbc case-insensitively. -/
def findWbcKey (vals : List (String × Cell)) : Option String :=
  match wbcCandidates.find? (fun c => (dictGet vals c).isSome) with
  | some c => some c
  | none => (dictKeys vals).find? (fun k => strContains (strLower k) "wbc")

/-- The five differential component names, in source order. -/
def diffNames : List String :=
  ["Neutrophils", "Lymphocytes", "Monocytes", "Eosinophils", "Basophils"]

/-- The percentage column name of one component. -/
def diffPctName (n : String) : String := n ++ " (%)"

/-- The absolute-count column name of one component. -/
def diffAbsName (n : String) : String := n ++ " (×10^9/L)"

/-- The ten keys the reconciler writes into the FBC panel dict. -/
def diffAddedKeys : List String :=
  diffNames.flatMap (fun n => [diffPctName n, diffAbsName n])

/-- The default base proportions. -/
def defaultProps : Fin 5 → ℚ := ![55 / 100, 30 / 100, 6 / 100, 7 / 100, 2 / 100]

/-- Base proportions from the differential metadata when it is a dict,
with the per-component defaults of the source, falling back to the default
vector when the metadata is absent, not a dict, or sums to zero or less. -/
def basePropsOf (vals : List (String × Cell)) : Fin 5 → ℚ :=
  match dictGet vals "differential_props" with
  | some (.metaCell (.dict p)) =>
    let arr : Fin 5 → ℚ :=
      ![p.neutrophils.getD (55 / 100), p.lymphocytes.getD (30 / 100),
        p.monocytes.getD (6 / 100), p.eosinophils.getD (7 / 100),
        p.basophils.getD (2 / 100)]
    if arr 0 + arr 1 + arr 2 + arr 3 + arr 4 ≤ 0 then defaultProps else arr
  | _ => defaultProps

/-- Set all ten differential keys of the panel dict to None. -/
def setAllNull (vals : List (String × Cell)) : List (String × Cell) :=
  diffNames.foldl
    (fun v n => dictSet (dictSet v (diffPctName n) .null) (diffAbsName n) .null) vals

/-- First index of the maximum, the semantics of np.argmax. -/
def argmaxAux (l : List ℚ) (i bi : ℕ) (bv : ℚ) : ℕ :=
  match l with
  | [] => bi
  | x :: xs => if bv < x then argmaxAux xs (i + 1) i x else argmaxAux xs (i + 1) bi bv

/-- np.argmax over a list. -/
def argmaxIdx : List ℚ → ℕ
  | [] => 0
  | x :: xs => argmaxAux xs 1 0 x

/-- In-place update of one list element through a function. -/
def listUpd (l : List ℚ) (i : ℕ) (f : ℚ → ℚ) : List ℚ := l.set i (f (l.getD i 0))

/-- Python zip over three lists. -/
def zipThree {α β γ : Type} : List α → List β → List γ → List (α × β × γ)
  | a :: as, b :: bs, c :: cs => (a, b, c) :: zipThree as bs cs
  | _, _, _ => []

/-- The residual-correction step of the reconciler: round each absolute
count to 2 decimals, and when the rounded counts miss the total by 0.01 or
more, add the rounded residual to the first largest component. -/
def fixCounts (absL : List ℚ) (total : ℚ) : List ℚ :=
  if 1 / 100 ≤ |round2 (total - absL.sum)| then
    listUpd absL (argmaxIdx absL)
      (fun x => round2 (x + round2 (total - absL.sum)))
  else absL

/-- The reconciler body on the FBC panel dict: locate the total count; when
it is missing or None set all ten differential keys to None; when it is the
copied metadata dict the float conversion raises TypeError; otherwise draw
the proportion vector from the Dirichlet oracle at concentration 50 times
the base proportions, write the five percentage and five absolute-count
keys, and delete the metadata key. -/
def reconcileVals (vals : List (String × Cell))
    (dir : (Fin 5 → ℚ) → Fin 5 → ℚ) : Except LabErr (List (String × Cell)) :=
  match findWbcKey vals with
  | none => .ok (setAllNull vals)
  | some wk =>
    match dictGet vals wk with
    | none => .ok (setAllNull vals)
    | some .null => .ok (setAllNull vals)
    | some (.metaCell _) => .error .typeErr
    | some (.val total) =>
      let base := basePropsOf vals
      let alpha : Fin 5 → ℚ := fun i => base i * 50
      let props := dir alpha
      let propsL := [props 0, props 1, props 2, props 3, props 4]
      let absL := fixCounts (propsL.map (fun p => round2 (p * total))) total
      let vals' := (zipThree diffNames propsL absL).foldl
        (fun v e =>
          dictSet (dictSet v (diffPctName e.1) (.val (round2 (e.2.1 * 100))))
            (diffAbsName e.1) (.val e.2.2)) vals
      .ok (dictDel vals' "differential_props")

/-- The reconciliation stage of generate_lab_results: run the reconciler
exactly once, on the detected FBC panel, when that panel is present and
was not skipped. -/
def reconcileStage (results : List (String × Option (List (String × Cell))))
    (fbc : Option String) (dir : (Fin 5 → ℚ) → Fin 5 → ℚ) :
    Except LabErr (List (String × Option (List (String × Cell)))) :=
  match fbc with
  | none => .ok results
  | some pf =>
    match dictGet results pf with
    | some (some vals) =>
      match reconcileVals vals dir with
      | .error e => .error e
      | .ok vals' => .ok (dictSet results pf (some vals'))
    | _ => .ok results

/-! ## The flattened column list and the final row -/

/-- Order-preserving dedup with a seen accumulator. -/
def dedupAux : List String → List String → List String
  | [], _ => []
  | x :: xs, seen => if x ∈ seen then dedupAux xs seen else x :: dedupAux xs (x :: seen)

/-- Order-preserving dedup. -/
def dedupKeep (l : List String) : List String := dedupAux l []

/-- The flattened column list, read from the profile declaration so that
skipped panels still contribute columns; a differential_props key of the
FBC panel contributes the ten differential columns. -/
def buildCols (panels : List (String × List (String × EntryVal)))
    (fbc : Option String) : List String :=
  dedupKeep (["Sex", "Age", "Condition"] ++ panels.flatMap (fun pr =>
    pr.2.flatMap (fun te =>
      if te.1 = "differential_props" then
        if fbc = some pr.1 then
          diffNames.flatMap (fun n =>
            [pr.1 ++ " - " ++ diffPctName n, pr.1 ++ " - " ++ diffAbsName n])
        else []
      else [pr.1 ++ " - " ++ te.1])))

/-- Build the final row: every column starts as None, the three context
columns are set, then the computed panel values are written under their
panel-prefixed column names, skipping metadata keys and skipped panels. -/
def buildRow (cols : List String) (sex : String) (age : ℤ) (condition : String)
    (results2 : List (String × Option (List (String × Cell)))) :
    List (String × RVal) :=
  results2.foldl (fun row pr =>
    match pr.2 with
    | none => row
    | some vals => vals.foldl (fun row' tc =>
        if tc.1 = "differential_props" then row'
        else dictSet row' (pr.1 ++ " - " ++ tc.1) (.cell tc.2)) row)
    (dictSet (dictSet (dictSet (cols.map (fun c => (c, RVal.cell .null)))
      "Sex" (.str sex)) "Age" (.int age)) "Condition" (.str condition))

/-! ## generate_lab_results -/

/-- generate_lab_results for one patient: condition lookup, panel omission,
first sampling pass, differential reconciliation, and row assembly. -/
def generate_lab_results (condition sex : String) (age : ℤ)
    (lifestyle : List String) (profiles : List (String × CondProfile))
    (r : RandOracle) : Except LabErr (List (String × RVal)) :=
  match dictGet profiles condition with
  | none => .error .unknownCondition
  | some cp =>
    let panels := cp.panels
    let panel_names := panels.map Prod.fst
    match panelsToSkip panel_names r with
    | .error e => .error e
    | .ok skips =>
      match firstPass sex age lifestyle r.draws panels skips [] [] 0 with
      | .error e => .error e
      | .ok (results, _, _) =>
        let fbc := detectFbc panel_names
        match reconcileStage results fbc r.dirichlet with
        | .error e => .error e
        | .ok results2 =>
          .ok (buildRow (buildCols panels fbc) sex age condition results2)

/-! ## Auxiliary notions used only by theorem statements -/

/-- The test spec with the exceptions sub-map of every lifestyle factor
removed; two specs that differ only in exceptions data clear to the same
spec. -/
def clearExceptions (t : TestSpec) : TestSpec :=
  { t with lifestyle := t.lifestyle.map (List.map (fun p =>
      (p.1, { p.2 with exceptions := none }))) }

/-- Every (panel, test) pair that can produce a row column: the declared
test keys of each panel together with the ten reconciler-written keys. -/
def allPairs (panels : List (String × List (String × EntryVal))) :
    List (String × String) :=
  panels.flatMap (fun pr => (pr.2.map Prod.fst ++ diffAddedKeys).map (fun tn => (pr.1, tn)))

/-- The flattened column name of a (panel, test) location. -/
def colOf (p t : String) : String := p ++ " - " ++ t

/-- The panel-value writes performed by buildRow, flattened to a list of
column-level assignments in execution order. -/
def flatWrites (results2 : List (String × Option (List (String × Cell)))) :
    List (String × RVal) :=
  results2.flatMap (fun pr =>
    match pr.2 with
    | none => []
    | some vals => (vals.filter (fun tc => !(tc.1 == "differential_props"))).map
        (fun tc => (pr.1 ++ " - " ++ tc.1, RVal.cell tc.2)))

/-- Apply a list of dict assignments in order. -/
def applyWrites (d : List (String × RVal)) (ws : List (String × RVal)) :
    List (String × RVal) :=
  ws.foldl (fun d' w => dictSet d' w.1 w.2) d

/-- The column naming is injective over the locations of the condition:
two distinct locations never share a flattened column name. -/
def colsInj (panels : List (String × List (String × EntryVal))) : Prop :=
  ∀ a ∈ allPairs panels, ∀ b ∈ allPairs panels,
    colOf a.1 a.2 = colOf b.1 b.2 → a = b

instance (panels : List (String × List (String × EntryVal))) :
    Decidable (colsInj panels) :=
  inferInstanceAs (Decidable (∀ a ∈ allPairs panels, ∀ b ∈ allPairs panels,
    colOf a.1 a.2 = colOf b.1 b.2 → a = b))

/-! # Theorems -/

/-! ## Rounding lemmas -/

theorem roundHalfEven_intCast (k : ℤ) : roundHalfEven (k : ℚ) = k := by
  unfold roundHalfEven
  rw [Int.floor_intCast, sub_self]
  norm_num

theorem le_roundHalfEven (x : ℚ) : ⌊x⌋ ≤ roundHalfEven x := by
  unfold roundHalfEven
  split_ifs <;> omega

theorem roundHalfEven_le (x : ℚ) : roundHalfEven x ≤ ⌊x⌋ + 1 := by
  unfold roundHalfEven
  split_ifs <;> omega

theorem roundHalfEven_mono {x y : ℚ} (h : x ≤ y) :
    roundHalfEven x ≤ roundHalfEven y := by
  have hf : ⌊x⌋ ≤ ⌊y⌋ := Int.floor_le_floor h
  rcases lt_or_eq_of_le hf with hlt | heq
  · have h1 := roundHalfEven_le x
    have h2 := le_roundHalfEven y
    omega
  · have h1 : ⌊y⌋ = ⌊x⌋ := heq.symm
    unfold roundHalfEven
    rw [h1]
    split_ifs <;> first | omega | (exfalso; linarith)

theorem round2_mono {x y : ℚ} (h : x ≤ y) : round2 x ≤ round2 y := by
  unfold round2
  have h1 : roundHalfEven (x * 100) ≤ roundHalfEven (y * 100) :=
    roundHalfEven_mono (by linarith)
  have h2 : ((roundHalfEven (x * 100) : ℤ) : ℚ) ≤ ((roundHalfEven (y * 100) : ℤ) : ℚ) := by
    exact_mod_cast h1
  linarith

theorem round2_isCent (q : ℚ) : isCent (round2 q) := ⟨roundHalfEven (q * 100), rfl⟩

theorem isCent_round2 {q : ℚ} (h : isCent q) : round2 q = q := by
  obtain ⟨k, rfl⟩ := h
  unfold round2
  have h0 : (k : ℚ) / 100 * 100 = (k : ℚ) := by
    field_simp
  rw [h0, roundHalfEven_intCast]

theorem isCent.add {a b : ℚ} (ha : isCent a) (hb : isCent b) : isCent (a + b) := by
  obtain ⟨m, rfl⟩ := ha
  obtain ⟨k, rfl⟩ := hb
  exact ⟨m + k, by push_cast; ring⟩

theorem isCent.sub {a b : ℚ} (ha : isCent a) (hb : isCent b) : isCent (a - b) := by
  obtain ⟨m, rfl⟩ := ha
  obtain ⟨k, rfl⟩ := hb
  exact ⟨m - k, by push_cast; ring⟩

theorem isCent_zero : isCent 0 := ⟨0, by norm_num⟩

theorem isCent_sum {l : List ℚ} (h : ∀ a ∈ l, isCent a) : isCent l.sum := by
  induction l with
  | nil => simpa using isCent_zero
  | cons x xs ih =>
    rw [List.sum_cons]
    exact (h x (by simp)).add (ih (fun a ha => h a (by simp [ha])))

theorem isCent.eq_zero_of_abs_lt {q : ℚ} (h : isCent q) (hq : |q| < 1 / 100) :
    q = 0 := by
  obtain ⟨k, rfl⟩ := h
  have h1 : |(k : ℚ)| < 1 := by
    rw [abs_div] at hq
    have : |(100 : ℚ)| = 100 := by norm_num
    rw [this] at hq
    linarith [hq]
  have h2 : |k| < 1 := by exact_mod_cast h1
  rw [abs_lt] at h2
  have h3 : k = 0 := by omega
  simp [h3]

/-! ## sample_value lemmas -/

theorem clampRound_isCent (mn mx : Option ℚ) (v : ℚ) : isCent (clampRound mn mx v) := by
  unfold clampRound
  cases mn <;> cases mx <;> exact round2_isCent _

theorem sample_value_ok_eq {d : Option String} {m s : ℚ} {mn mx : Option ℚ}
    {dr v : ℚ} (h : sample_value d m s mn mx dr = .ok v) :
    v = clampRound mn mx dr := by
  unfold sample_value at h
  split_ifs at h
  · exact (Except.ok.inj h).symm
  · exact (Except.ok.inj h).symm
  · cases mn <;> cases mx <;> simp_all
  · exact (Except.ok.inj h).symm

theorem sample_value_isCent {d : Option String} {m s : ℚ} {mn mx : Option ℚ}
    {dr v : ℚ} (h : sample_value d m s mn mx dr = .ok v) : isCent v := by
  rw [sample_value_ok_eq h]
  exact clampRound_isCent mn mx dr

/-! ## Claim C1 -/

/-- C1 (amended): when both bounds are present with min ≤ max, a successful
sample_value result lies in the interval [round2 min, round2 max]: the
value is clamped into [min, max] and then rounded, so the result can
escape [min, max] itself by up to half a hundredth but never escapes the
rounded bounds. -/
theorem sample_value_within_rounded_bounds {d : Option String} {m s a b dr v : ℚ}
    (h : sample_value d m s (some a) (some b) dr = .ok v) (hab : a ≤ b) :
    round2 a ≤ v ∧ v ≤ round2 b := by
  rw [sample_value_ok_eq h]
  unfold clampRound pyClip
  constructor
  · exact round2_mono (le_min (le_max_right dr a) hab)
  · exact round2_mono (min_le_right _ b)

/-- Witness for C1 at a concrete call. -/
theorem sample_value_within_rounded_bounds_witness :
    round2 3 ≤ 4 ∧ (4 : ℚ) ≤ round2 4 := by
  have h := @sample_value_within_rounded_bounds (some "normal") 0 1 3 4 10 4
    (by with_unfolding_all decide) (by norm_num)
  exact h

/-- C1 counterexample: with min = 0.006, max = 0.007 the clamped value
0.006 rounds to 0.01, which is strictly greater than max, so the returned
value does not lie in [min, max]. -/
theorem sample_value_bounds_cex :
    sample_value (some "normal") 0 1 (some (3 / 500)) (some (7 / 1000)) 0 =
      .ok (1 / 100) ∧ ¬((1 : ℚ) / 100 ≤ 7 / 1000) := by
  constructor
  · with_unfolding_all decide
  · norm_num

/-! ## Claim C8 -/

/-- C8: a uniform sample_value call with a missing min or max bound fails
with the MissingBound error, and with both bounds present it succeeds. -/
theorem sample_value_uniform_bounds (mean sd draw a b : ℚ) (mn mx : Option ℚ) :
    sample_value (some "uniform") mean sd none mx draw = .error .missingBound ∧
    sample_value (some "uniform") mean sd mn none draw = .error .missingBound ∧
    sample_value (some "uniform") mean sd (some a) (some b) draw =
      .ok (round2 (pyClip draw a b)) := by
  refine ⟨?_, ?_, ?_⟩
  · rfl
  · cases mn <;> rfl
  · rfl

/-! ## Claim C6 -/

/-- C6 counterexample: for a declared mean of 0.05 the fallback sd is the
floor value 0.01, not 10 percent of the mean. -/
theorem defaultSd_cex :
    defaultSd (1 / 20) = 1 / 100 ∧ defaultSd (1 / 20) ≠ (1 / 10) * (1 / 20) := by
  refine ⟨by norm_num [defaultSd], by norm_num [defaultSd]⟩

/-- C6 (amended): when sd is omitted the sd used is max(0.01, mean / 10),
which equals 10 percent of the declared mean exactly when that is at least
0.01, in particular for every mean of at least 0.1. -/
theorem defaultSd_tenpercent (mean : ℚ) (h : 1 / 10 ≤ mean) :
    defaultSd mean = mean / 10 := by
  unfold defaultSd
  rw [max_eq_right]
  linarith

/-- Witness for the amended C6. -/
theorem defaultSd_tenpercent_witness : defaultSd 2 = 2 / 10 :=
  defaultSd_tenpercent 2 (by norm_num)

/-! ## Claim C7 -/

theorem bandApply_first (pre post : List AgeBand) (b : AgeBand) (age : ℤ)
    (m s : ℚ)
    (hpre : ∀ b' ∈ pre, ¬(b'.min_age ≤ (age : ℚ) ∧ (age : ℚ) ≤ b'.max_age))
    (hb : b.min_age ≤ (age : ℚ) ∧ (age : ℚ) ≤ b.max_age) :
    bandApply (pre ++ b :: post) age m s =
      (m * b.mean_multiplier.getD 1, s * b.sd_multiplier.getD 1) := by
  induction pre with
  | nil =>
    simp only [List.nil_append, bandApply]
    rw [if_pos hb]
  | cons hd tl ih =>
    simp only [List.cons_append, bandApply]
    rw [if_neg (hpre hd (List.mem_cons_self _ _))]
    exact ih (fun b' hb' => hpre b' (List.mem_cons_of_mem _ hb'))

/-- C7: with a band-list age adjustment, the first listed band whose closed
interval [min_age, max_age] contains the age is the one applied (the lower
endpoint inclusively), and the result does not depend on any later band. -/
theorem age_band_first_match (pre post : List AgeBand) (b : AgeBand) (age : ℤ)
    (m s : ℚ)
    (hpre : ∀ b' ∈ pre, ¬(b'.min_age ≤ (age : ℚ) ∧ (age : ℚ) ≤ b'.max_age))
    (hb : b.min_age ≤ (age : ℚ) ∧ (age : ℚ) ≤ b.max_age) :
    applyAgeAdj (some (.bands (pre ++ b :: post))) age m s =
      (m * b.mean_multiplier.getD 1, s * b.sd_multiplier.getD 1) := by
  unfold applyAgeAdj
  exact bandApply_first pre post b age m s hpre hb

/-- Witness for C7: the age 50 equals the selected band's min_age, an
earlier band does not contain it, and a later overlapping band is ignored. -/
theorem age_band_first_match_witness :
    applyAgeAdj (some (.bands ([⟨10, 49, some 2, some 2⟩] ++
      (⟨50, 60, some 3, none⟩ : AgeBand) :: [⟨45, 55, some 7, some 7⟩]))) 50 5 4 =
      (15, 4) := by
  have h := age_band_first_match [⟨10, 49, some 2, some 2⟩] [⟨45, 55, some 7, some 7⟩]
    ⟨50, 60, some 3, none⟩ 50 5 4 (by with_unfolding_all decide)
    (by with_unfolding_all decide)
  simp only [Option.getD_some, Option.getD_none] at h
  norm_num at h
  exact h

/-! ## Claim C9 -/

theorem dictGet_map_clear (lmap : List (String × FacInfo)) (fac : String) :
    dictGet (lmap.map (fun p => (p.1, { p.2 with exceptions := none }))) fac =
      (dictGet lmap fac).map (fun fi => { fi with exceptions := none }) := by
  induction lmap with
  | nil => rfl
  | cons hd tl ih =>
    unfold dictGet
    by_cases h : fac = hd.1 <;> simp [h, ih]

theorem lifestyleStep_clear (m s : ℚ) (t : TestSpec) (ls : List String) :
    lifestyleStep m s (clearExceptions t) ls = lifestyleStep m s t ls := by
  unfold lifestyleStep clearExceptions
  cases h : t.lifestyle with
  | none => simp [h]
  | some lmap =>
    simp only [h, Option.map_some]
    apply List.foldl_ext
    intro p fac _
    rw [dictGet_map_clear]
    cases dictGet lmap fac <;> rfl

theorem sexStep_clear (m s : ℚ) (t : TestSpec) (k : String) :
    sexStep m s (clearExceptions t) k = sexStep m s t k := rfl

theorem clearExceptions_age (t : TestSpec) :
    (clearExceptions t).age_adjustment = t.age_adjustment := rfl

theorem apply_clearExceptions (mean sd : ℚ) (t : TestSpec) (sex : String)
    (age : ℤ) (ls : List String) :
    apply_sex_age_lifestyle mean sd (clearExceptions t) sex age ls =
      apply_sex_age_lifestyle mean sd t sex age ls := by
  unfold apply_sex_age_lifestyle
  rw [sexStep_clear, clearExceptions_age]
  cases sexStep mean sd t (strLower (if sex = "" then "other" else sex)) with
  | none => rfl
  | some p =>
    obtain ⟨m1, s1⟩ := p
    cases applyAgeAdj t.age_adjustment age m1 s1 with
    | mk m2 s2 => simp [lifestyleStep_clear]

/-- C9: the adjusted mean and sd are independent of the exceptions
sub-maps: two test specs that agree after erasing every lifestyle factor's
exceptions field produce identical adjustment results for every sex, age
and lifestyle list. -/
theorem lifestyle_exceptions_ignored (mean sd : ℚ) (sex : String) (age : ℤ)
    (ls : List String) (t1 t2 : TestSpec)
    (h : clearExceptions t1 = clearExceptions t2) :
    apply_sex_age_lifestyle mean sd t1 sex age ls =
      apply_sex_age_lifestyle mean sd t2 sex age ls := by
  rw [← apply_clearExceptions mean sd t1 sex age ls,
    ← apply_clearExceptions mean sd t2 sex age ls, h]

/-- Witness for C9 at two concrete specs that differ only in the
exceptions sub-map of the smoker factor. -/
theorem lifestyle_exceptions_ignored_witness :
    apply_sex_age_lifestyle 10 2
      { lifestyle := some [("smoker",
          { mean_multiplier := some 2, sd_multiplier := some 3,
            exceptions := some [("ALT", 5)] })] } "female" 30 ["smoker"] =
    apply_sex_age_lifestyle 10 2
      { lifestyle := some [("smoker",
          { mean_multiplier := some 2, sd_multiplier := some 3,
            exceptions := some [("GGT", 9)] })] } "female" 30 ["smoker"] := by
  exact lifestyle_exceptions_ignored 10 2 "female" 30 ["smoker"] _ _
    (by with_unfolding_all decide)

/-! ## Claim C5 -/

/-- C5: evaluating the embedded code at a structured sex-adjustment entry.
The source computes float(mults.get(sex_key, ...)) before it ever reads
the sd_multiplier, and float of a dict raises TypeError, so the call
crashes (returns no adjusted pair) instead of applying the multiplier and
sd_multiplier of the structured entry. -/
theorem sex_structured_entry_crashes :
    apply_sex_age_lifestyle 10 2
      { mean := 10,
        sex_adjustment := some [("male", .obj (some (6 / 5)) (some (3 / 2)))] }
      "male" 40 [] = none := by with_unfolding_all decide

/-! ## Claim C10 -/

/-- C10: on a condition whose profile declares exactly one panel, when the
panel-omission coin triggers and the omission count drawn is 2, the
random.sample call of generate_lab_results asks for 2 panels out of 1 and
raises, so generation fails on this well-formed input. -/
theorem single_panel_omission_crash :
    generate_lab_results "c" "other" 50 []
      [("c", ⟨[("P", [("X", .test { mean := 5 })])]⟩)]
      { skipCoin := true, pickTwo := true, skipPick := [],
        draws := fun _ => 0, dirichlet := fun _ _ => 0 } =
      .error .sampleTooLarge := by
  rfl

/-! ## Association-list lemmas -/

theorem dictGet_cons_self {α : Type} (k : String) (v : α)
    (tl : List (String × α)) : dictGet ((k, v) :: tl) k = some v := by
  show (if k = k then some v else dictGet tl k) = some v
  rw [if_pos rfl]

theorem dictGet_cons_ne {α : Type} {k' k0 : String} (h : k' ≠ k0) (v : α)
    (tl : List (String × α)) : dictGet ((k0, v) :: tl) k' = dictGet tl k' := by
  show (if k' = k0 then some v else dictGet tl k') = dictGet tl k'
  rw [if_neg h]

theorem dictGet_dictSet_self {α : Type} (l : List (String × α)) (k : String)
    (v : α) : dictGet (dictSet l k v) k = some v := by
  induction l with
  | nil => simp [dictSet, dictGet]
  | cons hd tl ih =>
    cases hd with
    | mk k' v' =>
      unfold dictSet
      by_cases h : k = k'
      · rw [if_pos h]
        simp [dictGet]
      · rw [if_neg h]
        unfold dictGet
        rw [if_neg h]
        exact ih

theorem dictGet_dictSet_ne {α : Type} {k k' : String} (h : k' ≠ k)
    (l : List (String × α)) (v : α) :
    dictGet (dictSet l k v) k' = dictGet l k' := by
  induction l with
  | nil => simp [dictSet, dictGet, h]
  | cons hd tl ih =>
    cases hd with
    | mk k0 v0 =>
      unfold dictSet
      by_cases hk : k = k0
      · rw [if_pos hk]
        unfold dictGet
        rw [if_neg h, if_neg (hk ▸ h)]
      · rw [if_neg hk]
        unfold dictGet
        by_cases h0 : k' = k0
        · rw [if_pos h0, if_pos h0]
        · rw [if_neg h0, if_neg h0]
          exact ih

theorem dictGet_mem {α : Type} {l : List (String × α)} {k : String} {v : α}
    (h : dictGet l k = some v) : (k, v) ∈ l := by
  induction l with
  | nil => simp [dictGet] at h
  | cons hd tl ih =>
    cases hd with
    | mk k0 v0 =>
      unfold dictGet at h
      by_cases hk : k = k0
      · rw [if_pos hk] at h
        have hv : v0 = v := Option.some.inj h
        subst hv hk
        exact List.mem_cons_self _ _
      · rw [if_neg hk] at h
        exact List.mem_cons_of_mem _ (ih h)

theorem mem_dictSet {α : Type} {l : List (String × α)} {k : String} {v : α}
    {p : String × α} (h : p ∈ dictSet l k v) : p = (k, v) ∨ p ∈ l := by
  induction l with
  | nil => simpa [dictSet] using h
  | cons hd tl ih =>
    cases hd with
    | mk k0 v0 =>
      unfold dictSet at h
      by_cases hk : k = k0
      · rw [if_pos hk] at h
        rcases List.mem_cons.1 h with h1 | h1
        · exact Or.inl h1
        · exact Or.inr (List.mem_cons_of_mem _ h1)
      · rw [if_neg hk] at h
        rcases List.mem_cons.1 h with h1 | h1
        · exact Or.inr (h1 ▸ List.mem_cons_self _ _)
        · rcases ih h1 with h2 | h2
          · exact Or.inl h2
          · exact Or.inr (List.mem_cons_of_mem _ h2)

theorem dictKeys_dictSet_mem {α : Type} {l : List (String × α)} {k : String}
    (h : k ∈ dictKeys l) (v : α) : dictKeys (dictSet l k v) = dictKeys l := by
  induction l with
  | nil => simp [dictKeys] at h
  | cons hd tl ih =>
    cases hd with
    | mk k0 v0 =>
      unfold dictSet
      by_cases hk : k = k0
      · rw [if_pos hk]
        simp [dictKeys, hk]
      · rw [if_neg hk]
        have hmem : k ∈ dictKeys tl := by
          simp [dictKeys] at h
          rcases h with h1 | h1
          · exact absurd h1 hk
          · simpa [dictKeys] using h1
        simp only [dictKeys, List.map_cons]
        congr 1
        exact ih hmem

theorem mem_dictKeys_dictSet {α : Type} {l : List (String × α)} {k a : String}
    {v : α} (h : a ∈ dictKeys (dictSet l k v)) : a ∈ dictKeys l ∨ a = k := by
  unfold dictKeys at h
  rcases List.mem_map.1 h with ⟨p, hp, rfl⟩
  rcases mem_dictSet hp with h1 | h1
  · exact Or.inr (by rw [h1])
  · exact Or.inl (List.mem_map_of_mem _ h1)

theorem nodup_dictKeys_dictSet {α : Type} {l : List (String × α)} {k : String}
    (v : α) (h : (dictKeys l).Nodup) : (dictKeys (dictSet l k v)).Nodup := by
  induction l with
  | nil => simp [dictSet, dictKeys]
  | cons hd tl ih =>
    cases hd with
    | mk k0 v0 =>
      simp only [dictKeys, List.map_cons, List.nodup_cons] at h
      unfold dictSet
      by_cases hk : k = k0
      · rw [if_pos hk]
        simp only [dictKeys, List.map_cons, List.nodup_cons]
        exact ⟨hk ▸ h.1, h.2⟩
      · rw [if_neg hk]
        simp only [dictKeys, List.map_cons, List.nodup_cons]
        refine ⟨fun hc => ?_, ih h.2⟩
        rcases mem_dictKeys_dictSet hc with h1 | h1
        · exact h.1 h1
        · exact hk (h1.symm)

theorem dictGet_dictDel_ne {α : Type} {k k' : String} (h : k' ≠ k)
    (l : List (String × α)) : dictGet (dictDel l k) k' = dictGet l k' := by
  induction l with
  | nil => simp [dictDel]
  | cons hd tl ih =>
    cases hd with
    | mk k0 v0 =>
      unfold dictDel
      by_cases hk : k = k0
      · rw [if_pos hk]
        subst hk
        rw [dictGet_cons_ne h]
      · rw [if_neg hk]
        by_cases h0 : k' = k0
        · subst h0
          rw [dictGet_cons_self, dictGet_cons_self]
        · rw [dictGet_cons_ne h0, dictGet_cons_ne h0]
          exact ih

theorem mem_dictKeys_dictDel {α : Type} {l : List (String × α)} {k a : String}
    (h : a ∈ dictKeys (dictDel l k)) : a ∈ dictKeys l := by
  induction l with
  | nil => simpa [dictDel] using h
  | cons hd tl ih =>
    cases hd with
    | mk k0 v0 =>
      unfold dictDel at h
      by_cases hk : k = k0
      · rw [if_pos hk] at h
        exact List.mem_cons_of_mem _ h
      · rw [if_neg hk] at h
        simp only [dictKeys, List.map_cons, List.mem_cons] at h ⊢
        rcases h with h1 | h1
        · exact Or.inl h1
        · exact Or.inr (ih h1)

theorem mem_dictDel {α : Type} {l : List (String × α)} {k : String}
    {p : String × α} (h : p ∈ dictDel l k) : p ∈ l := by
  induction l with
  | nil => simpa [dictDel] using h
  | cons hd tl ih =>
    unfold dictDel at h
    by_cases hk : k = hd.1
    · rw [if_pos hk] at h
      exact List.mem_cons_of_mem _ h
    · rw [if_neg hk] at h
      rcases List.mem_cons.1 h with h1 | h1
      · exact h1 ▸ List.mem_cons_self _ _
      · exact List.mem_cons_of_mem _ (ih h1)

theorem nodup_dictKeys_dictDel {α : Type} {l : List (String × α)} {k : String}
    (h : (dictKeys l).Nodup) : (dictKeys (dictDel l k)).Nodup := by
  induction l with
  | nil => simpa [dictDel] using h
  | cons hd tl ih =>
    simp only [dictKeys, List.map_cons, List.nodup_cons] at h
    unfold dictDel
    by_cases hk : k = hd.1
    · rw [if_pos hk]
      exact h.2
    · rw [if_neg hk]
      simp only [dictKeys, List.map_cons, List.nodup_cons]
      exact ⟨fun hc => h.1 (mem_dictKeys_dictDel hc), ih h.2⟩

theorem dictGet_eq_of_mem_nodup {α : Type} {l : List (String × α)} {k : String}
    {v : α} (hm : (k, v) ∈ l) (hn : (dictKeys l).Nodup) : dictGet l k = some v := by
  induction l with
  | nil => simp at hm
  | cons hd tl ih =>
    cases hd with
    | mk k0 v0 =>
      simp only [dictKeys, List.map_cons, List.nodup_cons] at hn
      rcases List.mem_cons.1 hm with h1 | h1
      · have hk : k = k0 := congrArg Prod.fst h1
        have hv : v = v0 := congrArg Prod.snd h1
        subst hk
        subst hv
        exact dictGet_cons_self k v tl
      · have hk : k ≠ k0 := by
          intro hc
          subst hc
          exact hn.1 (List.mem_map_of_mem Prod.fst h1)
        rw [dictGet_cons_ne hk]
        exact ih h1 hn.2

theorem dictGet_some_of_mem_keys {α : Type} {l : List (String × α)} {k : String}
    (h : k ∈ dictKeys l) : ∃ v, dictGet l k = some v := by
  induction l with
  | nil => simp [dictKeys] at h
  | cons hd tl ih =>
    cases hd with
    | mk k0 v0 =>
      unfold dictGet
      by_cases hk : k = k0
      · exact ⟨v0, by rw [if_pos hk]⟩
      · simp only [dictKeys, List.map_cons, List.mem_cons] at h
        rcases h with h1 | h1
        · exact absurd h1 hk
        · rw [if_neg hk]
          exact ih h1

theorem mem_keys_of_dictGet {α : Type} {l : List (String × α)} {k : String}
    {v : α} (h : dictGet l k = some v) : k ∈ dictKeys l :=
  List.mem_map_of_mem _ (dictGet_mem h)

/-! ## applyWrites machinery for buildRow -/

theorem applyWrites_cons (d : List (String × RVal)) (w : String × RVal)
    (ws : List (String × RVal)) :
    applyWrites d (w :: ws) = applyWrites (dictSet d w.1 w.2) ws := rfl

theorem applyWrites_append (d : List (String × RVal)) (a b : List (String × RVal)) :
    applyWrites d (a ++ b) = applyWrites (applyWrites d a) b := by
  unfold applyWrites
  exact List.foldl_append _ _ _ _

theorem applyWrites_lookup_not_mem {d ws} {c : String}
    (h : c ∉ ws.map Prod.fst) :
    dictGet (applyWrites d ws) c = dictGet d c := by
  induction ws generalizing d with
  | nil => rfl
  | cons w ws ih =>
    simp only [List.map_cons, List.mem_cons] at h
    push_neg at h
    rw [applyWrites_cons, ih h.2, dictGet_dictSet_ne h.1]

theorem applyWrites_lookup_same {d ws} {c : String} {v : RVal}
    (hall : ∀ w ∈ ws, w.1 = c → w.2 = v) (hmem : c ∈ ws.map Prod.fst) :
    dictGet (applyWrites d ws) c = some v := by
  induction ws generalizing d with
  | nil => simp at hmem
  | cons w ws ih =>
    rw [applyWrites_cons]
    by_cases hmem2 : c ∈ ws.map Prod.fst
    · exact ih (fun w' hw' hx => hall w' (List.mem_cons_of_mem _ hw') hx) hmem2
    · have hw : w.1 = c := by
        simp only [List.map_cons, List.mem_cons] at hmem
        rcases hmem with h1 | h1
        · exact h1.symm
        · exact absurd h1 hmem2
      have hv : w.2 = v := hall w (List.mem_cons_self _ _) hw
      rw [applyWrites_lookup_not_mem hmem2, ← hw, dictGet_dictSet_self, hv]

theorem applyWrites_keys {d : List (String × RVal)} {ws : List (String × RVal)}
    (h : ∀ w ∈ ws, w.1 ∈ dictKeys d) :
    dictKeys (applyWrites d ws) = dictKeys d := by
  induction ws generalizing d with
  | nil => rfl
  | cons w ws ih =>
    rw [applyWrites_cons]
    have h1 : w.1 ∈ dictKeys d := h w (List.mem_cons_self _ _)
    have h2 : ∀ w' ∈ ws, w'.1 ∈ dictKeys (dictSet d w.1 w.2) := by
      intro w' hw'
      rw [dictKeys_dictSet_mem h1]
      exact h w' (List.mem_cons_of_mem _ hw')
    rw [ih h2, dictKeys_dictSet_mem h1]

theorem panel_fold_eq (row : List (String × RVal)) (pn : String)
    (vals : List (String × Cell)) :
    vals.foldl (fun row' tc =>
        if tc.1 = "differential_props" then row'
        else dictSet row' (pn ++ " - " ++ tc.1) (.cell tc.2)) row =
      applyWrites row ((vals.filter (fun tc => !(tc.1 == "differential_props"))).map
        (fun tc => (pn ++ " - " ++ tc.1, RVal.cell tc.2))) := by
  induction vals generalizing row with
  | nil => rfl
  | cons tc vals ih =>
    by_cases h : tc.1 = "differential_props"
    · have hb : (!(tc.1 == "differential_props")) = false := by simp [h]
      rw [List.foldl_cons, if_pos h, List.filter_cons, hb, if_neg (by simp)]
      exact ih row
    · simp only [List.foldl_cons, if_neg h, List.filter_cons]
      have hb : (!(tc.1 == "differential_props")) = true := by
        simp [h]
      rw [if_pos hb, List.map_cons, applyWrites_cons]
      exact ih _

theorem buildRow_eq (cols : List String) (sex : String) (age : ℤ)
    (cond : String) (results2 : List (String × Option (List (String × Cell)))) :
    buildRow cols sex age cond results2 =
      applyWrites
        (dictSet (dictSet (dictSet (cols.map (fun c => (c, RVal.cell .null)))
          "Sex" (.str sex)) "Age" (.int age)) "Condition" (.str cond))
        (flatWrites results2) := by
  unfold buildRow
  generalize (dictSet (dictSet (dictSet (cols.map (fun c => (c, RVal.cell .null)))
    "Sex" (.str sex)) "Age" (.int age)) "Condition" (.str cond)) = init
  induction results2 generalizing init with
  | nil => rfl
  | cons pr rest ih =>
    cases pr with
    | mk pn o =>
      cases o with
      | none =>
        simp only [List.foldl_cons, flatWrites, List.flatMap_cons]
        rw [List.nil_append]
        exact ih init
      | some vals =>
        simp only [List.foldl_cons, flatWrites, List.flatMap_cons]
        rw [panel_fold_eq, applyWrites_append]
        exact ih _

theorem mem_flatWrites {results2 : List (String × Option (List (String × Cell)))}
    {w : String × RVal} :
    w ∈ flatWrites results2 ↔ ∃ pn vals tc, (pn, some vals) ∈ results2 ∧
      tc ∈ vals ∧ tc.1 ≠ "differential_props" ∧
      w = (pn ++ " - " ++ tc.1, RVal.cell tc.2) := by
  unfold flatWrites
  rw [List.mem_flatMap]
  constructor
  · rintro ⟨pr, hpr, hw⟩
    cases pr with
    | mk pn o =>
      cases o with
      | none => simp at hw
      | some vals =>
        simp only [List.mem_map, List.mem_filter] at hw
        obtain ⟨tc, ⟨htc, hne⟩, rfl⟩ := hw
        exact ⟨pn, vals, tc, hpr, htc, by simpa using hne, rfl⟩
  · rintro ⟨pn, vals, tc, hpr, htc, hne, rfl⟩
    refine ⟨(pn, some vals), hpr, ?_⟩
    simp only [List.mem_map, List.mem_filter]
    exact ⟨tc, ⟨htc, by simpa using hne⟩, rfl⟩

/-- The central buildRow lookup lemma: when every panel write targeting a
column carries the same value, the built row holds that value there. -/
theorem row_lookup_of_unique (cols : List String) (sex : String) (age : ℤ)
    (cond : String) (results2 : List (String × Option (List (String × Cell))))
    (pn t : String) (c : Cell) (vals : List (String × Cell))
    (hmem : (pn, some vals) ∈ results2)
    (hvals : (t, c) ∈ vals)
    (htdp : t ≠ "differential_props")
    (hval_uniq : ∀ tc ∈ vals, tc.1 = t → tc.2 = c)
    (hpn_uniq : ∀ pr ∈ results2, ∀ vs, pr.2 = some vs → ∀ tc ∈ vs,
      tc.1 ≠ "differential_props" →
      pr.1 ++ " - " ++ tc.1 = pn ++ " - " ++ t → pr.1 = pn ∧ tc.1 = t)
    (hpanel_uniq : ∀ pr ∈ results2, pr.1 = pn → pr.2 = some vals) :
    dictGet (buildRow cols sex age cond results2) (pn ++ " - " ++ t) =
      some (.cell c) := by
  rw [buildRow_eq]
  apply applyWrites_lookup_same
  · intro w hw hcol
    rcases mem_flatWrites.1 hw with ⟨pn', vals', tc, hpr, htc, hne, rfl⟩
    have h1 := hpn_uniq (pn', some vals') hpr vals' rfl tc htc hne hcol
    have h3 : vals' = vals :=
      Option.some.inj (hpanel_uniq (pn', some vals') hpr h1.1)
    subst h3
    have := hval_uniq tc htc h1.2
    simp [this]
  · have : (pn ++ " - " ++ t, RVal.cell c) ∈ flatWrites results2 :=
      mem_flatWrites.2 ⟨pn, vals, (t, c), hmem, hvals, htdp, rfl⟩
    exact List.mem_map_of_mem Prod.fst this

/-- The buildRow key-schema lemma: when every panel write targets a column
of the declared list, the key list of the built row is exactly the column
list. -/
theorem row_keys_eq (cols : List String) (sex : String) (age : ℤ)
    (cond : String) (results2 : List (String × Option (List (String × Cell))))
    (hS : "Sex" ∈ cols) (hA : "Age" ∈ cols) (hC : "Condition" ∈ cols)
    (hw : ∀ w ∈ flatWrites results2, w.1 ∈ cols) :
    dictKeys (buildRow cols sex age cond results2) = cols := by
  rw [buildRow_eq]
  have hkeys0 : dictKeys (cols.map (fun c => (c, RVal.cell .null))) = cols := by
    unfold dictKeys
    rw [List.map_map]
    have hcomp : (Prod.fst ∘ fun c : String => (c, RVal.cell Cell.null)) =
        (id : String → String) := rfl
    rw [hcomp, List.map_id]
  have h1 : dictKeys (dictSet (cols.map (fun c => (c, RVal.cell .null)))
      "Sex" (.str sex)) = cols := by
    rw [dictKeys_dictSet_mem (by rw [hkeys0]; exact hS), hkeys0]
  have h2 : dictKeys (dictSet (dictSet (cols.map (fun c => (c, RVal.cell .null)))
      "Sex" (.str sex)) "Age" (.int age)) = cols := by
    rw [dictKeys_dictSet_mem (by rw [h1]; exact hA), h1]
  have h3 : dictKeys (dictSet (dictSet (dictSet
      (cols.map (fun c => (c, RVal.cell .null)))
      "Sex" (.str sex)) "Age" (.int age)) "Condition" (.str cond)) = cols := by
    rw [dictKeys_dictSet_mem (by rw [h2]; exact hC), h2]
  rw [applyWrites_keys ?_, h3]
  intro w hwm
  rw [h3]
  exact hw w hwm

/-! ## The first-pass invariants -/

theorem isSome_dictSet {α : Type} {l : List (String × α)} {k' : String}
    (k : String) (v : α) (h : (dictGet l k').isSome) :
    (dictGet (dictSet l k v) k').isSome := by
  by_cases he : k' = k
  · subst he
    rw [dictGet_dictSet_self]
    rfl
  · rw [dictGet_dictSet_ne he]
    exact h

theorem isSome_dictSet_self {α : Type} (l : List (String × α)) (k : String)
    (v : α) : (dictGet (dictSet l k v) k).isSome := by
  rw [dictGet_dictSet_self]
  rfl

/-- The full specification of the per-test loop, established by one
induction: the shared cache only grows; presence of keys in the panel dict
is preserved and ends up covering every test of the panel while staying
inside the declared keys; key lists stay duplicate-free; every numeric
value is a whole number of hundredths; and every non-metadata cell of the
output equals the shared-cache value of its test name. -/
theorem processTests_spec {sex : String} {age : ℤ} {ls : List String}
    {draws : ℕ → ℚ} {tests : List (String × EntryVal)}
    {out out' : List (String × Cell)} {shared shared' : List (String × ℚ)}
    {n n' : ℕ}
    (h : processTests sex age ls draws tests out shared n =
      .ok (out', shared', n')) :
    (∀ k v, dictGet shared k = some v → dictGet shared' k = some v) ∧
    (∀ k, (dictGet out k).isSome → (dictGet out' k).isSome) ∧
    (∀ p ∈ tests, (dictGet out' p.1).isSome) ∧
    (∀ k ∈ dictKeys out', k ∈ dictKeys out ∨ k ∈ tests.map Prod.fst) ∧
    ((dictKeys out).Nodup → (dictKeys out').Nodup) ∧
    ((∀ p ∈ shared, isCent p.2) → (∀ p ∈ shared', isCent p.2)) ∧
    ((∀ p ∈ shared, isCent p.2) →
      (∀ p ∈ out, ∀ q, p.2 = Cell.val q → isCent q) →
      (∀ p ∈ out', ∀ q, p.2 = Cell.val q → isCent q)) ∧
    ((∀ t c, t ≠ "differential_props" → dictGet out t = some c →
        ∃ v, c = Cell.val v ∧ dictGet shared t = some v) →
      (∀ t c, t ≠ "differential_props" → dictGet out' t = some c →
        ∃ v, c = Cell.val v ∧ dictGet shared' t = some v)) := by
  induction tests generalizing out shared n with
  | nil =>
    simp only [processTests, Except.ok.injEq, Prod.mk.injEq] at h
    obtain ⟨ho, hs, hn⟩ := h
    subst ho
    subst hs
    exact ⟨fun k v hv => hv, fun k hk => hk, by simp, fun k hk => Or.inl hk,
      id, fun hc => hc, fun _ hc => hc, id⟩
  | cons hd tl ih =>
    obtain ⟨name, ev⟩ := hd
    by_cases hname : name = "differential_props"
    · simp only [processTests, if_pos hname] at h
      obtain ⟨S1, S2, S3, S4, S5, S6, S7, S8⟩ := ih h
      refine ⟨S1, ?_, ?_, ?_, ?_, S6, ?_, ?_⟩
      · intro k hk
        exact S2 k (isSome_dictSet name (metaCellOf ev) hk)
      · intro p hp
        rcases List.mem_cons.1 hp with h1 | h1
        · rw [h1]
          exact S2 name (isSome_dictSet_self out name (metaCellOf ev))
        · exact S3 p h1
      · intro k hk
        rcases S4 k hk with h1 | h1
        · rcases mem_dictKeys_dictSet h1 with h2 | h2
          · exact Or.inl h2
          · exact Or.inr (by simp [h2])
        · exact Or.inr (by simp [h1])
      · intro hnd
        exact S5 (nodup_dictKeys_dictSet (metaCellOf ev) hnd)
      · intro hcs hco
        refine S7 hcs ?_
        intro p hp q hq
        rcases mem_dictSet hp with h1 | h1
        · rw [h1] at hq
          cases ev <;> simp [metaCellOf] at hq
        · exact hco p h1 q hq
      · intro hI
        refine S8 ?_
        intro t c ht hc
        rw [dictGet_dictSet_ne (fun he : t = name => ht (he.trans hname))] at hc
        exact hI t c ht hc
    · cases ev with
      | metaVal d =>
        simp only [processTests, if_neg hname] at h
        exact absurd h (by simp)
      | test t0 =>
        simp only [processTests, if_neg hname] at h
        split at h
        next happ => exact absurd h (by simp)
        next p happ =>
          obtain ⟨am, asd⟩ := p
          split at h
          next v hsh =>
            -- reuse of the shared value
            obtain ⟨S1, S2, S3, S4, S5, S6, S7, S8⟩ := ih h
            refine ⟨S1, ?_, ?_, ?_, ?_, S6, ?_, ?_⟩
            · intro k hk
              exact S2 k (isSome_dictSet name (Cell.val v) hk)
            · intro p hp
              rcases List.mem_cons.1 hp with h1 | h1
              · rw [h1]
                exact S2 name (isSome_dictSet_self out name (Cell.val v))
              · exact S3 p h1
            · intro k hk
              rcases S4 k hk with h1 | h1
              · rcases mem_dictKeys_dictSet h1 with h2 | h2
                · exact Or.inl h2
                · exact Or.inr (by simp [h2])
              · exact Or.inr (by simp [h1])
            · intro hnd
              exact S5 (nodup_dictKeys_dictSet (Cell.val v) hnd)
            · intro hcs hco
              refine S7 hcs ?_
              intro p hp q hq
              rcases mem_dictSet hp with h1 | h1
              · rw [h1] at hq
                have hv : v = q := Cell.val.inj hq
                subst hv
                exact hcs (name, v) (dictGet_mem hsh)
              · exact hco p h1 q hq
            · intro hI
              refine S8 ?_
              intro t c ht hc
              by_cases he : t = name
              · subst he
                rw [dictGet_dictSet_self] at hc
                exact ⟨v, (Option.some.inj hc).symm, hsh⟩
              · rw [dictGet_dictSet_ne he] at hc
                exact hI t c ht hc
          next hsh =>
            split at h
            next e hsv => exact absurd h (by simp)
            next v hsv =>
              -- fresh sample
              obtain ⟨S1, S2, S3, S4, S5, S6, S7, S8⟩ := ih h
              have hvc : isCent v := sample_value_isCent hsv
              have hshared : ∀ k w, dictGet shared k = some w →
                  dictGet (dictSet shared name v) k = some w := by
                intro k w hk
                by_cases hkn : k = name
                · subst hkn
                  rw [hsh] at hk
                  cases hk
                · rw [dictGet_dictSet_ne hkn]
                  exact hk
              refine ⟨?_, ?_, ?_, ?_, ?_, ?_, ?_, ?_⟩
              · intro k w hk
                exact S1 k w (hshared k w hk)
              · intro k hk
                exact S2 k (isSome_dictSet name (Cell.val v) hk)
              · intro p hp
                rcases List.mem_cons.1 hp with h1 | h1
                · rw [h1]
                  exact S2 name (isSome_dictSet_self out name (Cell.val v))
                · exact S3 p h1
              · intro k hk
                rcases S4 k hk with h1 | h1
                · rcases mem_dictKeys_dictSet h1 with h2 | h2
                  · exact Or.inl h2
                  · exact Or.inr (by simp [h2])
                · exact Or.inr (by simp [h1])
              · intro hnd
                exact S5 (nodup_dictKeys_dictSet (Cell.val v) hnd)
              · intro hcs
                refine S6 ?_
                intro p hp
                rcases mem_dictSet hp with h1 | h1
                · rw [h1]
                  exact hvc
                · exact hcs p h1
              · intro hcs hco
                have hcs1 : ∀ p ∈ dictSet shared name v, isCent p.2 := by
                  intro p hp
                  rcases mem_dictSet hp with h1 | h1
                  · rw [h1]
                    exact hvc
                  · exact hcs p h1
                refine S7 hcs1 ?_
                intro p hp q hq
                rcases mem_dictSet hp with h1 | h1
                · rw [h1] at hq
                  have hv : v = q := Cell.val.inj hq
                  subst hv
                  exact hvc
                · exact hco p h1 q hq
              · intro hI
                refine S8 ?_
                intro t c ht hc
                by_cases he : t = name
                · subst he
                  rw [dictGet_dictSet_self] at hc
                  exact ⟨v, (Option.some.inj hc).symm, dictGet_dictSet_self _ _ _⟩
                · rw [dictGet_dictSet_ne he] at hc
                  obtain ⟨w, hw1, hw2⟩ := hI t c ht hc
                  exact ⟨w, hw1, by rw [dictGet_dictSet_ne he]; exact hw2⟩

/-- The full specification of the panel loop of the first pass: the shared
cache only grows (F1); every results entry is an input entry or stems from
a declared panel, with keys inside that panel's declared tests (F2); key
lists stay duplicate-free (F3); every numeric cell is a whole number of
hundredths (F4, F5); every non-metadata cell equals the final shared-cache
value of its test name (F6); under distinct panel names, every unskipped
declared panel is present with every declared test filled (F7); and keys
outside the processed panels are untouched (F8). -/
theorem firstPass_spec {sex : String} {age : ℤ} {ls : List String}
    {draws : ℕ → ℚ} {panels : List (String × List (String × EntryVal))}
    {skips : List String}
    {results results' : List (String × Option (List (String × Cell)))}
    {shared shared' : List (String × ℚ)} {n n' : ℕ}
    (h : firstPass sex age ls draws panels skips results shared n =
      .ok (results', shared', n')) :
    (∀ k v, dictGet shared k = some v → dictGet shared' k = some v) ∧
    (∀ pr ∈ results', pr ∈ results ∨
      ∃ tests, (pr.1, tests) ∈ panels ∧
        (pr.2 = none ∨ ∃ vals, pr.2 = some vals ∧ (dictKeys vals).Nodup ∧
          ∀ tn ∈ dictKeys vals, tn ∈ tests.map Prod.fst)) ∧
    ((dictKeys results).Nodup → (dictKeys results').Nodup) ∧
    ((∀ p ∈ shared, isCent p.2) →
      (∀ pr ∈ results, ∀ vals, pr.2 = some vals →
        ∀ p ∈ vals, ∀ q, p.2 = Cell.val q → isCent q) →
      (∀ pr ∈ results', ∀ vals, pr.2 = some vals →
        ∀ p ∈ vals, ∀ q, p.2 = Cell.val q → isCent q)) ∧
    ((∀ p ∈ shared, isCent p.2) → ∀ p ∈ shared', isCent p.2) ∧
    ((∀ pn vals t c, dictGet results pn = some (some vals) →
        t ≠ "differential_props" → dictGet vals t = some c →
        ∃ v, c = Cell.val v ∧ dictGet shared t = some v) →
      (∀ pn vals t c, dictGet results' pn = some (some vals) →
        t ≠ "differential_props" → dictGet vals t = some c →
        ∃ v, c = Cell.val v ∧ dictGet shared' t = some v)) ∧
    ((panels.map Prod.fst).Nodup → ∀ pn tests, (pn, tests) ∈ panels →
      pn ∉ skips → ∃ vals, dictGet results' pn = some (some vals) ∧
        ∀ p ∈ tests, (dictGet vals p.1).isSome) ∧
    (∀ k, k ∉ panels.map Prod.fst → dictGet results' k = dictGet results k) := by
  induction panels generalizing results shared n with
  | nil =>
    simp only [firstPass, Except.ok.injEq, Prod.mk.injEq] at h
    obtain ⟨ho, hs, hn⟩ := h
    subst ho
    subst hs
    refine ⟨fun k v hv => hv, fun pr hpr => Or.inl hpr, id, fun _ hc => hc,
      fun hc => hc, id, ?_, fun k _ => rfl⟩
    intro _ pn tests hmem
    simp at hmem
  | cons hd rest ih =>
    obtain ⟨panel, tests0⟩ := hd
    by_cases hskip : panel ∈ skips
    · simp only [firstPass, if_pos hskip] at h
      obtain ⟨F1, F2, F3, F4, F5, F6, F7, F8⟩ := ih h
      refine ⟨F1, ?_, ?_, ?_, F5, ?_, ?_, ?_⟩
      · intro pr hpr
        rcases F2 pr hpr with h1 | ⟨tests, h2, h3⟩
        · rcases mem_dictSet h1 with h4 | h4
          · subst h4
            exact Or.inr ⟨tests0, List.mem_cons_self _ _, Or.inl rfl⟩
          · exact Or.inl h4
        · exact Or.inr ⟨tests, List.mem_cons_of_mem _ h2, h3⟩
      · intro hnd
        exact F3 (nodup_dictKeys_dictSet none hnd)
      · intro hcs hco
        refine F4 hcs ?_
        intro pr hpr vals hvals
        rcases mem_dictSet hpr with h1 | h1
        · rw [h1] at hvals
          cases hvals
        · exact hco pr h1 vals hvals
      · intro hJ
        refine F6 ?_
        intro pn vals t c hpn ht hc
        by_cases he : pn = panel
        · subst he
          rw [dictGet_dictSet_self] at hpn
          cases Option.some.inj hpn
        · rw [dictGet_dictSet_ne he] at hpn
          exact hJ pn vals t c hpn ht hc
      · intro hnd pn tests hmem hns
        simp only [List.map_cons, List.nodup_cons] at hnd
        rcases List.mem_cons.1 hmem with h1 | h1
        · exfalso
          have : pn = panel := congrArg Prod.fst h1
          exact hns (this ▸ hskip)
        · exact F7 hnd.2 pn tests h1 hns
      · intro k hk
        simp only [List.map_cons, List.mem_cons] at hk
        push_neg at hk
        rw [F8 k hk.2, dictGet_dictSet_ne hk.1]
    · simp only [firstPass, if_neg hskip] at h
      split at h
      next e hpt => exact absurd h (by simp)
      next po sh1 n1 hpt =>
        obtain ⟨P1, P2, P3, P4, P5, P6, P7, P8⟩ := processTests_spec hpt
        obtain ⟨F1, F2, F3, F4, F5, F6, F7, F8⟩ := ih h
        have hponodup : (dictKeys po).Nodup := P5 (by simp [dictKeys])
        have hpokeys : ∀ tn ∈ dictKeys po, tn ∈ tests0.map Prod.fst := by
          intro tn htn
          rcases P4 tn htn with h1 | h1
          · simp [dictKeys] at h1
          · exact h1
        refine ⟨?_, ?_, ?_, ?_, ?_, ?_, ?_, ?_⟩
        · intro k v hk
          exact F1 k v (P1 k v hk)
        · intro pr hpr
          rcases F2 pr hpr with h1 | ⟨tests, h2, h3⟩
          · rcases mem_dictSet h1 with h4 | h4
            · subst h4
              exact Or.inr ⟨tests0, List.mem_cons_self _ _,
                Or.inr ⟨po, rfl, hponodup, hpokeys⟩⟩
            · exact Or.inl h4
          · exact Or.inr ⟨tests, List.mem_cons_of_mem _ h2, h3⟩
        · intro hnd
          exact F3 (nodup_dictKeys_dictSet (some po) hnd)
        · intro hcs hco
          refine F4 (P6 hcs) ?_
          intro pr hpr vals hvals
          rcases mem_dictSet hpr with h1 | h1
          · have hvals2 : some po = some vals := by
              rw [← hvals, h1]
            have hpo : po = vals := Option.some.inj hvals2
            subst hpo
            intro p hp q hq
            exact P7 hcs (by simp) p hp q hq
          · exact hco pr h1 vals hvals
        · intro hcs
          exact F5 (P6 hcs)
        · intro hJ
          refine F6 ?_
          intro pn vals t c hpn ht hc
          by_cases he : pn = panel
          · subst he
            rw [dictGet_dictSet_self] at hpn
            have hpo : po = vals := Option.some.inj (Option.some.inj hpn)
            subst hpo
            refine P8 ?_ t c ht hc
            intro t' c' ht' hc'
            simp [dictGet] at hc'
          · rw [dictGet_dictSet_ne he] at hpn
            obtain ⟨v, hv1, hv2⟩ := hJ pn vals t c hpn ht hc
            exact ⟨v, hv1, P1 t v hv2⟩
        · intro hnd pn tests hmem hns
          simp only [List.map_cons, List.nodup_cons] at hnd
          rcases List.mem_cons.1 hmem with h1 | h1
          · have hpn : pn = panel := congrArg Prod.fst h1
            have hts : tests = tests0 := congrArg Prod.snd h1
            subst hpn
            subst hts
            refine ⟨po, ?_, fun p hp => P3 p hp⟩
            rw [F8 pn hnd.1, dictGet_dictSet_self]
          · exact F7 hnd.2 pn tests h1 hns
        · intro k hk
          simp only [List.map_cons, List.mem_cons] at hk
          push_neg at hk
          rw [F8 k hk.2, dictGet_dictSet_ne hk.1]

/-! ## Reconciler arithmetic lemmas -/

theorem argmaxAux_lt (l : List ℚ) : ∀ i bi : ℕ, ∀ bv : ℚ, bi < i →
    argmaxAux l i bi bv < i + l.length := by
  induction l with
  | nil =>
    intro i bi bv h
    simpa [argmaxAux] using h
  | cons x xs ih =>
    intro i bi bv h
    unfold argmaxAux
    by_cases hx : bv < x
    · rw [if_pos hx]
      have := ih (i + 1) i x (by omega)
      simpa [Nat.add_comm, Nat.add_assoc, Nat.add_left_comm] using this
    · rw [if_neg hx]
      have := ih (i + 1) bi bv (by omega)
      simpa [Nat.add_comm, Nat.add_assoc, Nat.add_left_comm] using this

theorem argmaxIdx_lt {l : List ℚ} (h : l ≠ []) : argmaxIdx l < l.length := by
  cases l with
  | nil => exact absurd rfl h
  | cons x xs =>
    unfold argmaxIdx
    have := argmaxAux_lt xs 1 0 x (by omega)
    simpa [Nat.add_comm] using this

theorem sum_listUpd (l : List ℚ) (f : ℚ → ℚ) :
    ∀ i : ℕ, i < l.length →
    (listUpd l i f).sum = l.sum - l.getD i 0 + f (l.getD i 0) := by
  induction l with
  | nil =>
    intro i h
    simp at h
  | cons x xs ih =>
    intro i h
    cases i with
    | zero =>
      simp [listUpd, List.sum_cons]
      ring
    | succ j =>
      have hj : j < xs.length := by simpa using h
      have := ih j hj
      simp only [listUpd] at this ⊢
      simp only [List.set_cons_succ, List.getD_cons_succ, List.sum_cons]
      rw [this]
      ring

theorem getD_isCent {l : List ℚ} (hc : ∀ a ∈ l, isCent a) (i : ℕ) :
    isCent (l.getD i 0) := by
  induction l generalizing i with
  | nil => simpa [List.getD] using isCent_zero
  | cons x xs ih =>
    cases i with
    | zero => exact hc x (List.mem_cons_self _ _)
    | succ j =>
      simp only [List.getD_cons_succ]
      exact ih (fun a ha => hc a (List.mem_cons_of_mem _ ha)) j

/-- The residual correction restores the exact total: the rounded counts
are whole hundredths, so the rounded residual is the exact residual, and
either it is zero (no correction needed) or it is added in full to the
largest component. -/
theorem fixCounts_sum {absL : List ℚ} {total : ℚ} (hne : absL ≠ [])
    (hc : ∀ a ∈ absL, isCent a) (ht : isCent total) :
    (fixCounts absL total).sum = total := by
  have hcentsum : isCent absL.sum := isCent_sum hc
  have hdc : isCent (total - absL.sum) := ht.sub hcentsum
  have hdiff : round2 (total - absL.sum) = total - absL.sum := isCent_round2 hdc
  unfold fixCounts
  rw [hdiff]
  by_cases hge : 1 / 100 ≤ |total - absL.sum|
  · rw [if_pos hge]
    have hil := argmaxIdx_lt hne
    have hgc : isCent (absL.getD (argmaxIdx absL) 0) := getD_isCent hc _
    have hr : round2 (absL.getD (argmaxIdx absL) 0 + (total - absL.sum)) =
        absL.getD (argmaxIdx absL) 0 + (total - absL.sum) :=
      isCent_round2 (hgc.add hdc)
    rw [sum_listUpd absL _ _ hil, hr]
    ring
  · rw [if_neg hge]
    push_neg at hge
    have h0 : total - absL.sum = 0 := hdc.eq_zero_of_abs_lt hge
    linarith

theorem fixCounts_length (absL : List ℚ) (total : ℚ) :
    (fixCounts absL total).length = absL.length := by
  unfold fixCounts
  split_ifs
  · simp [listUpd]
  · rfl

theorem list_len5 {l : List ℚ} (h : l.length = 5) :
    ∃ a0 a1 a2 a3 a4, l = [a0, a1, a2, a3, a4] := by
  cases l with
  | nil => simp at h
  | cons a0 l =>
    cases l with
    | nil => simp at h
    | cons a1 l =>
      cases l with
      | nil => simp at h
      | cons a2 l =>
        cases l with
        | nil => simp at h
        | cons a3 l =>
          cases l with
          | nil => simp at h
          | cons a4 l =>
            cases l with
            | nil => exact ⟨a0, a1, a2, a3, a4, rfl⟩
            | cons a5 l => simp at h

/-! ## Reconciler dict-shape lemmas -/

theorem mem_diffAddedKeys {t : String} :
    t ∈ diffAddedKeys ↔ ∃ n ∈ diffNames, t = diffPctName n ∨ t = diffAbsName n := by
  unfold diffAddedKeys
  rw [List.mem_flatMap]
  constructor
  · rintro ⟨n, hn, ht⟩
    rcases List.mem_cons.1 ht with h1 | h1
    · exact ⟨n, hn, Or.inl h1⟩
    · rcases List.mem_cons.1 h1 with h2 | h2
      · exact ⟨n, hn, Or.inr h2⟩
      · simp at h2
  · rintro ⟨n, hn, h1 | h1⟩
    · exact ⟨n, hn, by simp [h1]⟩
    · exact ⟨n, hn, by simp [h1]⟩

theorem pairFold_lookup_ne {t : String} (names : List String) :
    ∀ vals : List (String × Cell),
      (∀ n ∈ names, t ≠ diffPctName n ∧ t ≠ diffAbsName n) →
      dictGet (names.foldl (fun v n =>
        dictSet (dictSet v (diffPctName n) .null) (diffAbsName n) .null) vals) t =
        dictGet vals t := by
  induction names with
  | nil =>
    intro vals _
    rfl
  | cons n ns ih =>
    intro vals h
    rw [List.foldl_cons]
    have hn := h n (List.mem_cons_self _ _)
    rw [ih _ (fun m hm => h m (List.mem_cons_of_mem _ hm)),
      dictGet_dictSet_ne hn.2, dictGet_dictSet_ne hn.1]

theorem pairFold_keys (names : List String) (vals : List (String × Cell)) :
    ∀ t ∈ dictKeys (names.foldl (fun v n =>
      dictSet (dictSet v (diffPctName n) .null) (diffAbsName n) .null) vals),
      t ∈ dictKeys vals ∨ ∃ n ∈ names, t = diffPctName n ∨ t = diffAbsName n := by
  induction names generalizing vals with
  | nil =>
    intro t ht
    exact Or.inl ht
  | cons n ns ih =>
    intro t ht
    rw [List.foldl_cons] at ht
    rcases ih _ t ht with h1 | ⟨m, hm, h2⟩
    · rcases mem_dictKeys_dictSet h1 with h2 | h2
      · rcases mem_dictKeys_dictSet h2 with h3 | h3
        · exact Or.inl h3
        · exact Or.inr ⟨n, List.mem_cons_self _ _, Or.inl h3⟩
      · exact Or.inr ⟨n, List.mem_cons_self _ _, Or.inr h2⟩
    · exact Or.inr ⟨m, List.mem_cons_of_mem _ hm, h2⟩

theorem pairFold_nodup (names : List String) (vals : List (String × Cell))
    (h : (dictKeys vals).Nodup) :
    (dictKeys (names.foldl (fun v n =>
      dictSet (dictSet v (diffPctName n) .null) (diffAbsName n) .null) vals)).Nodup := by
  induction names generalizing vals with
  | nil => exact h
  | cons n ns ih =>
    rw [List.foldl_cons]
    exact ih _ (nodup_dictKeys_dictSet _ (nodup_dictKeys_dictSet _ h))

theorem setAllNull_lookup_ne {vals : List (String × Cell)} {t : String}
    (h : t ∉ diffAddedKeys) : dictGet (setAllNull vals) t = dictGet vals t := by
  unfold setAllNull
  refine pairFold_lookup_ne diffNames vals ?_
  intro n hn
  constructor
  · intro he
    exact h (mem_diffAddedKeys.2 ⟨n, hn, Or.inl he⟩)
  · intro he
    exact h (mem_diffAddedKeys.2 ⟨n, hn, Or.inr he⟩)

theorem setAllNull_keys {vals : List (String × Cell)} :
    ∀ t ∈ dictKeys (setAllNull vals), t ∈ dictKeys vals ∨ t ∈ diffAddedKeys := by
  intro t ht
  rcases pairFold_keys diffNames vals t ht with h1 | ⟨n, hn, h2⟩
  · exact Or.inl h1
  · exact Or.inr (mem_diffAddedKeys.2 ⟨n, hn, h2⟩)

theorem setAllNull_nodup {vals : List (String × Cell)}
    (h : (dictKeys vals).Nodup) : (dictKeys (setAllNull vals)).Nodup :=
  pairFold_nodup diffNames vals h

theorem zipFold_lookup_ne {t : String} (names : List String) :
    ∀ (ps as : List ℚ) (vals : List (String × Cell)),
      (∀ n ∈ names, t ≠ diffPctName n ∧ t ≠ diffAbsName n) →
      dictGet ((zipThree names ps as).foldl (fun v e =>
        dictSet (dictSet v (diffPctName e.1) (.val (round2 (e.2.1 * 100))))
          (diffAbsName e.1) (.val e.2.2)) vals) t = dictGet vals t := by
  induction names with
  | nil =>
    intro ps as vals _
    rfl
  | cons n ns ih =>
    intro ps as vals h
    cases ps with
    | nil => rfl
    | cons p ps =>
      cases as with
      | nil => rfl
      | cons a as =>
        rw [show zipThree (n :: ns) (p :: ps) (a :: as) =
          (n, p, a) :: zipThree ns ps as from rfl, List.foldl_cons]
        have hn := h n (List.mem_cons_self _ _)
        rw [ih ps as _ (fun m hm => h m (List.mem_cons_of_mem _ hm)),
          dictGet_dictSet_ne hn.2, dictGet_dictSet_ne hn.1]

theorem zipFold_keys (names : List String) (ps as : List ℚ)
    (vals : List (String × Cell)) :
    ∀ t ∈ dictKeys ((zipThree names ps as).foldl (fun v e =>
      dictSet (dictSet v (diffPctName e.1) (.val (round2 (e.2.1 * 100))))
        (diffAbsName e.1) (.val e.2.2)) vals),
      t ∈ dictKeys vals ∨ ∃ n ∈ names, t = diffPctName n ∨ t = diffAbsName n := by
  induction names generalizing ps as vals with
  | nil =>
    intro t ht
    exact Or.inl ht
  | cons n ns ih =>
    intro t ht
    cases ps with
    | nil => exact Or.inl ht
    | cons p ps =>
      cases as with
      | nil => exact Or.inl ht
      | cons a as =>
        rw [show zipThree (n :: ns) (p :: ps) (a :: as) =
          (n, p, a) :: zipThree ns ps as from rfl, List.foldl_cons] at ht
        rcases ih ps as _ t ht with h1 | ⟨m, hm, h2⟩
        · rcases mem_dictKeys_dictSet h1 with h2 | h2
          · rcases mem_dictKeys_dictSet h2 with h3 | h3
            · exact Or.inl h3
            · exact Or.inr ⟨n, List.mem_cons_self _ _, Or.inl h3⟩
          · exact Or.inr ⟨n, List.mem_cons_self _ _, Or.inr h2⟩
        · exact Or.inr ⟨m, List.mem_cons_of_mem _ hm, h2⟩

theorem zipFold_nodup (names : List String) (ps as : List ℚ)
    (vals : List (String × Cell)) (h : (dictKeys vals).Nodup) :
    (dictKeys ((zipThree names ps as).foldl (fun v e =>
      dictSet (dictSet v (diffPctName e.1) (.val (round2 (e.2.1 * 100))))
        (diffAbsName e.1) (.val e.2.2)) vals)).Nodup := by
  induction names generalizing ps as vals with
  | nil => exact h
  | cons n ns ih =>
    cases ps with
    | nil => exact h
    | cons p ps =>
      cases as with
      | nil => exact h
      | cons a as =>
        rw [show zipThree (n :: ns) (p :: ps) (a :: as) =
          (n, p, a) :: zipThree ns ps as from rfl, List.foldl_cons]
        exact ih ps as _ (nodup_dictKeys_dictSet _ (nodup_dictKeys_dictSet _ h))

/-! ## reconcileVals lemmas -/

theorem reconcileVals_preserve {vals : List (String × Cell)}
    {dir : (Fin 5 → ℚ) → Fin 5 → ℚ} {out : List (String × Cell)} {t : String}
    (h : reconcileVals vals dir = .ok out)
    (ht1 : t ∉ diffAddedKeys) (ht2 : t ≠ "differential_props") :
    dictGet out t = dictGet vals t := by
  have hne : ∀ n ∈ diffNames, t ≠ diffPctName n ∧ t ≠ diffAbsName n := by
    intro n hn
    exact ⟨fun he => ht1 (mem_diffAddedKeys.2 ⟨n, hn, Or.inl he⟩),
      fun he => ht1 (mem_diffAddedKeys.2 ⟨n, hn, Or.inr he⟩)⟩
  simp only [reconcileVals] at h
  split at h
  · rw [← Except.ok.inj h, setAllNull_lookup_ne ht1]
  · split at h
    · rw [← Except.ok.inj h, setAllNull_lookup_ne ht1]
    · rw [← Except.ok.inj h, setAllNull_lookup_ne ht1]
    · exact absurd h (by simp)
    · rw [← Except.ok.inj h, dictGet_dictDel_ne ht2,
        zipFold_lookup_ne _ _ _ _ hne]

theorem reconcileVals_keys {vals : List (String × Cell)}
    {dir : (Fin 5 → ℚ) → Fin 5 → ℚ} {out : List (String × Cell)}
    (h : reconcileVals vals dir = .ok out) :
    ∀ k ∈ dictKeys out, k ∈ dictKeys vals ∨ k ∈ diffAddedKeys := by
  simp only [reconcileVals] at h
  split at h
  · rw [← Except.ok.inj h]
    exact setAllNull_keys
  · split at h
    · rw [← Except.ok.inj h]
      exact setAllNull_keys
    · rw [← Except.ok.inj h]
      exact setAllNull_keys
    · exact absurd h (by simp)
    · rw [← Except.ok.inj h]
      intro k hk
      have hk2 := mem_dictKeys_dictDel hk
      rcases zipFold_keys _ _ _ _ k hk2 with h1 | ⟨n, hn, h2⟩
      · exact Or.inl h1
      · exact Or.inr (mem_diffAddedKeys.2 ⟨n, hn, h2⟩)

theorem reconcileVals_nodup {vals : List (String × Cell)}
    {dir : (Fin 5 → ℚ) → Fin 5 → ℚ} {out : List (String × Cell)}
    (h : reconcileVals vals dir = .ok out)
    (hnd : (dictKeys vals).Nodup) : (dictKeys out).Nodup := by
  simp only [reconcileVals] at h
  split at h
  · rw [← Except.ok.inj h]
    exact setAllNull_nodup hnd
  · split at h
    · rw [← Except.ok.inj h]
      exact setAllNull_nodup hnd
    · rw [← Except.ok.inj h]
      exact setAllNull_nodup hnd
    · exact absurd h (by simp)
    · rw [← Except.ok.inj h]
      exact nodup_dictKeys_dictDel (zipFold_nodup _ _ _ _ hnd)

theorem reconcile_writes_lookup (vals : List (String × Cell))
    (p0 p1 p2 p3 p4 a0 a1 a2 a3 a4 : ℚ) (w : List (String × Cell))
    (hw : w = (zipThree diffNames [p0, p1, p2, p3, p4]
      [a0, a1, a2, a3, a4]).foldl (fun v e =>
        dictSet (dictSet v (diffPctName e.1) (.val (round2 (e.2.1 * 100))))
          (diffAbsName e.1) (.val e.2.2)) vals) :
    dictGet w (diffAbsName "Neutrophils") = some (.val a0) ∧
    dictGet w (diffAbsName "Lymphocytes") = some (.val a1) ∧
    dictGet w (diffAbsName "Monocytes") = some (.val a2) ∧
    dictGet w (diffAbsName "Eosinophils") = some (.val a3) ∧
    dictGet w (diffAbsName "Basophils") = some (.val a4) := by
  subst hw
  rw [show zipThree diffNames [p0, p1, p2, p3, p4] [a0, a1, a2, a3, a4] =
    [("Neutrophils", p0, a0), ("Lymphocytes", p1, a1), ("Monocytes", p2, a2),
     ("Eosinophils", p3, a3), ("Basophils", p4, a4)] from rfl]
  simp only [List.foldl_cons, List.foldl_nil]
  refine ⟨?_, ?_, ?_, ?_, ?_⟩
  · rw [dictGet_dictSet_ne (by decide), dictGet_dictSet_ne (by decide),
      dictGet_dictSet_ne (by decide), dictGet_dictSet_ne (by decide),
      dictGet_dictSet_ne (by decide), dictGet_dictSet_ne (by decide),
      dictGet_dictSet_ne (by decide), dictGet_dictSet_ne (by decide),
      dictGet_dictSet_self]
  · rw [dictGet_dictSet_ne (by decide), dictGet_dictSet_ne (by decide),
      dictGet_dictSet_ne (by decide), dictGet_dictSet_ne (by decide),
      dictGet_dictSet_ne (by decide), dictGet_dictSet_ne (by decide),
      dictGet_dictSet_self]
  · rw [dictGet_dictSet_ne (by decide), dictGet_dictSet_ne (by decide),
      dictGet_dictSet_ne (by decide), dictGet_dictSet_ne (by decide),
      dictGet_dictSet_self]
  · rw [dictGet_dictSet_ne (by decide), dictGet_dictSet_ne (by decide),
      dictGet_dictSet_self]
  · rw [dictGet_dictSet_self]

/-- The value path of the reconciler: when the total count is located and
is a numeric whole number of hundredths, the reconciler succeeds and emits
five absolute counts that sum exactly to the total. -/
theorem reconcileVals_diff_sum {vals : List (String × Cell)}
    {dir : (Fin 5 → ℚ) → Fin 5 → ℚ} {wk : String} {total : ℚ}
    (hwk : findWbcKey vals = some wk)
    (htot : dictGet vals wk = some (.val total))
    (hcent : isCent total) :
    ∃ out a0 a1 a2 a3 a4, reconcileVals vals dir = .ok out ∧
      dictGet out (diffAbsName "Neutrophils") = some (.val a0) ∧
      dictGet out (diffAbsName "Lymphocytes") = some (.val a1) ∧
      dictGet out (diffAbsName "Monocytes") = some (.val a2) ∧
      dictGet out (diffAbsName "Eosinophils") = some (.val a3) ∧
      dictGet out (diffAbsName "Basophils") = some (.val a4) ∧
      a0 + a1 + a2 + a3 + a4 = total := by
  have habs5 : (fixCounts (List.map (fun p => round2 (p * total))
      [dir (fun i => basePropsOf vals i * 50) 0,
       dir (fun i => basePropsOf vals i * 50) 1,
       dir (fun i => basePropsOf vals i * 50) 2,
       dir (fun i => basePropsOf vals i * 50) 3,
       dir (fun i => basePropsOf vals i * 50) 4]) total).length = 5 := by
    rw [fixCounts_length]
    simp
  obtain ⟨a0, a1, a2, a3, a4, habs⟩ := list_len5 habs5
  have hsum0 : (fixCounts (List.map (fun p => round2 (p * total))
      [dir (fun i => basePropsOf vals i * 50) 0,
       dir (fun i => basePropsOf vals i * 50) 1,
       dir (fun i => basePropsOf vals i * 50) 2,
       dir (fun i => basePropsOf vals i * 50) 3,
       dir (fun i => basePropsOf vals i * 50) 4]) total).sum = total := by
    refine fixCounts_sum (by simp) ?_ hcent
    intro a ha
    rcases List.mem_map.1 ha with ⟨p, _, rfl⟩
    exact round2_isCent _
  have hsum : a0 + a1 + a2 + a3 + a4 = total := by
    rw [habs] at hsum0
    simp only [List.sum_cons, List.sum_nil] at hsum0
    linarith
  have hout : reconcileVals vals dir = .ok (dictDel ((zipThree diffNames
      [dir (fun i => basePropsOf vals i * 50) 0,
       dir (fun i => basePropsOf vals i * 50) 1,
       dir (fun i => basePropsOf vals i * 50) 2,
       dir (fun i => basePropsOf vals i * 50) 3,
       dir (fun i => basePropsOf vals i * 50) 4]
      (fixCounts (List.map (fun p => round2 (p * total))
        [dir (fun i => basePropsOf vals i * 50) 0,
         dir (fun i => basePropsOf vals i * 50) 1,
         dir (fun i => basePropsOf vals i * 50) 2,
         dir (fun i => basePropsOf vals i * 50) 3,
         dir (fun i => basePropsOf vals i * 50) 4]) total)).foldl (fun v e =>
        dictSet (dictSet v (diffPctName e.1) (.val (round2 (e.2.1 * 100))))
          (diffAbsName e.1) (.val e.2.2)) vals) "differential_props") := by
    simp only [reconcileVals, hwk, htot]
  refine ⟨_, a0, a1, a2, a3, a4, hout, ?_, ?_, ?_, ?_, ?_, hsum⟩
  · rw [dictGet_dictDel_ne (by decide), habs]
    exact (reconcile_writes_lookup vals _ _ _ _ _ a0 a1 a2 a3 a4 _ rfl).1
  · rw [dictGet_dictDel_ne (by decide), habs]
    exact (reconcile_writes_lookup vals _ _ _ _ _ a0 a1 a2 a3 a4 _ rfl).2.1
  · rw [dictGet_dictDel_ne (by decide), habs]
    exact (reconcile_writes_lookup vals _ _ _ _ _ a0 a1 a2 a3 a4 _ rfl).2.2.1
  · rw [dictGet_dictDel_ne (by decide), habs]
    exact (reconcile_writes_lookup vals _ _ _ _ _ a0 a1 a2 a3 a4 _ rfl).2.2.2.1
  · rw [dictGet_dictDel_ne (by decide), habs]
    exact (reconcile_writes_lookup vals _ _ _ _ _ a0 a1 a2 a3 a4 _ rfl).2.2.2.2

/-! ## reconcileStage lemmas -/

theorem reconcileStage_entries {results results2 :
    List (String × Option (List (String × Cell)))} {fbc : Option String}
    {dir : (Fin 5 → ℚ) → Fin 5 → ℚ}
    (h : reconcileStage results fbc dir = .ok results2) :
    ∀ pr ∈ results2, pr ∈ results ∨
      ∃ pf vals vals', fbc = some pf ∧ pr = (pf, some vals') ∧
        dictGet results pf = some (some vals) ∧
        reconcileVals vals dir = .ok vals' := by
  simp only [reconcileStage] at h
  split at h
  · rw [← Except.ok.inj h]
    exact fun pr hpr => Or.inl hpr
  next pf =>
    split at h
    next vals hlook =>
      split at h
      next e hrec => exact absurd h (by simp)
      next vals' hrec =>
        rw [← Except.ok.inj h]
        intro pr hpr
        rcases mem_dictSet hpr with h1 | h1
        · exact Or.inr ⟨pf, vals, vals', rfl, h1, hlook, hrec⟩
        · exact Or.inl h1
    next =>
      rw [← Except.ok.inj h]
      exact fun pr hpr => Or.inl hpr

theorem reconcileStage_nodup {results results2 :
    List (String × Option (List (String × Cell)))} {fbc : Option String}
    {dir : (Fin 5 → ℚ) → Fin 5 → ℚ}
    (h : reconcileStage results fbc dir = .ok results2)
    (hnd : (dictKeys results).Nodup) : (dictKeys results2).Nodup := by
  simp only [reconcileStage] at h
  split at h
  · rw [← Except.ok.inj h]
    exact hnd
  next pf =>
    split at h
    next vals hlook =>
      split at h
      next e hrec => exact absurd h (by simp)
      next vals' hrec =>
        rw [← Except.ok.inj h]
        exact nodup_dictKeys_dictSet _ hnd
    next =>
      rw [← Except.ok.inj h]
      exact hnd

theorem reconcileStage_lookup {results results2 :
    List (String × Option (List (String × Cell)))} {fbc : Option String}
    {dir : (Fin 5 → ℚ) → Fin 5 → ℚ}
    (h : reconcileStage results fbc dir = .ok results2)
    (pn : String) (vals : List (String × Cell))
    (hpn : dictGet results pn = some (some vals)) :
    ∃ vals2, dictGet results2 pn = some (some vals2) ∧
      (vals2 = vals ∨ reconcileVals vals dir = .ok vals2) := by
  simp only [reconcileStage] at h
  split at h
  · rw [← Except.ok.inj h]
    exact ⟨vals, hpn, Or.inl rfl⟩
  next pf =>
    split at h
    next vals0 hlook =>
      split at h
      next e hrec => exact absurd h (by simp)
      next vals' hrec =>
        rw [← Except.ok.inj h]
        by_cases he : pn = pf
        · subst he
          rw [hpn] at hlook
          have hv : vals = vals0 :=
            Option.some.inj (Option.some.inj hlook)
          subst hv
          exact ⟨vals', dictGet_dictSet_self _ _ _, Or.inr hrec⟩
        · rw [dictGet_dictSet_ne he]
          exact ⟨vals, hpn, Or.inl rfl⟩
    next =>
      rw [← Except.ok.inj h]
      exact ⟨vals, hpn, Or.inl rfl⟩

/-! ## Pipeline bridging lemmas -/

theorem dict_val_unique {α : Type} {l : List (String × α)} {k : String}
    {a b : α} (hnd : (dictKeys l).Nodup) (ha : (k, a) ∈ l)
    (hb : dictGet l k = some b) : a = b := by
  have := dictGet_eq_of_mem_nodup ha hnd
  rw [this] at hb
  exact Option.some.inj hb

theorem snd_eq_of_mem_nodup {α : Type} {l : List (String × α)}
    {pr : String × α} {x : α} (hnd : (dictKeys l).Nodup) (hpr : pr ∈ l)
    (hx : dictGet l pr.1 = some x) : pr.2 = x := by
  have hm : (pr.1, pr.2) ∈ l := by
    cases pr
    exact hpr
  exact dict_val_unique hnd hm hx

theorem mem_allPairs_intro {panels : List (String × List (String × EntryVal))}
    {pn tn : String} {tests : List (String × EntryVal)}
    (hp : (pn, tests) ∈ panels)
    (ht : tn ∈ tests.map Prod.fst ∨ tn ∈ diffAddedKeys) :
    (pn, tn) ∈ allPairs panels := by
  unfold allPairs
  rw [List.mem_flatMap]
  refine ⟨(pn, tests), hp, ?_⟩
  rw [List.mem_map]
  refine ⟨tn, ?_, rfl⟩
  rw [List.mem_append]
  exact ht

theorem generate_eq {condition sex : String} {age : ℤ} {ls : List String}
    {profiles : List (String × CondProfile)} {r : RandOracle}
    {cp : CondProfile} {skips : List String}
    {results results2 : List (String × Option (List (String × Cell)))}
    {shared : List (String × ℚ)} {n : ℕ}
    (hc : dictGet profiles condition = some cp)
    (hskips : panelsToSkip (cp.panels.map Prod.fst) r = .ok skips)
    (hfp : firstPass sex age ls r.draws cp.panels skips [] [] 0 =
      .ok (results, shared, n))
    (hrs : reconcileStage results (detectFbc (cp.panels.map Prod.fst))
      r.dirichlet = .ok results2) :
    generate_lab_results condition sex age ls profiles r =
      .ok (buildRow (buildCols cp.panels (detectFbc (cp.panels.map Prod.fst)))
        sex age condition results2) := by
  simp only [generate_lab_results, hc, hskips, hfp, hrs]

theorem generate_stage_err1 {condition sex : String} {age : ℤ}
    {ls : List String} {profiles : List (String × CondProfile)}
    {r : RandOracle} {cp : CondProfile} {e : LabErr}
    (hc : dictGet profiles condition = some cp)
    (hsk : panelsToSkip (cp.panels.map Prod.fst) r = .error e) :
    generate_lab_results condition sex age ls profiles r = .error e := by
  simp only [generate_lab_results, hc, hsk]

theorem generate_stage_err2 {condition sex : String} {age : ℤ}
    {ls : List String} {profiles : List (String × CondProfile)}
    {r : RandOracle} {cp : CondProfile} {skips : List String} {e : LabErr}
    (hc : dictGet profiles condition = some cp)
    (hskips : panelsToSkip (cp.panels.map Prod.fst) r = .ok skips)
    (hfp : firstPass sex age ls r.draws cp.panels skips [] [] 0 = .error e) :
    generate_lab_results condition sex age ls profiles r = .error e := by
  simp only [generate_lab_results, hc, hskips, hfp]

theorem generate_stage_err3 {condition sex : String} {age : ℤ}
    {ls : List String} {profiles : List (String × CondProfile)}
    {r : RandOracle} {cp : CondProfile} {skips : List String}
    {results : List (String × Option (List (String × Cell)))}
    {shared : List (String × ℚ)} {n : ℕ} {e : LabErr}
    (hc : dictGet profiles condition = some cp)
    (hskips : panelsToSkip (cp.panels.map Prod.fst) r = .ok skips)
    (hfp : firstPass sex age ls r.draws cp.panels skips [] [] 0 =
      .ok (results, shared, n))
    (hrs : reconcileStage results (detectFbc (cp.panels.map Prod.fst))
      r.dirichlet = .error e) :
    generate_lab_results condition sex age ls profiles r = .error e := by
  simp only [generate_lab_results, hc, hskips, hfp, hrs]

/-- Every non-null panel dict of the reconciled results has duplicate-free
keys, stems from a declared panel, and every key of it is a declared test
of that panel or a reconciler-written differential key of the detected
FBC panel. -/
theorem results2_entry_origin {sex : String} {age : ℤ} {ls : List String}
    {draws : ℕ → ℚ} {panels : List (String × List (String × EntryVal))}
    {skips : List String}
    {results results2 : List (String × Option (List (String × Cell)))}
    {shared : List (String × ℚ)} {n : ℕ}
    {dir : (Fin 5 → ℚ) → Fin 5 → ℚ}
    (hfp : firstPass sex age ls draws panels skips [] [] 0 =
      .ok (results, shared, n))
    (hrs : reconcileStage results (detectFbc (panels.map Prod.fst)) dir =
      .ok results2) :
    ∀ pr ∈ results2, ∀ vs, pr.2 = some vs → (dictKeys vs).Nodup ∧
      ∃ tests, (pr.1, tests) ∈ panels ∧
        ∀ tn ∈ dictKeys vs, tn ∈ tests.map Prod.fst ∨
          (detectFbc (panels.map Prod.fst) = some pr.1 ∧ tn ∈ diffAddedKeys) := by
  intro pr hpr vs hvs
  obtain ⟨_, F2, _, _, _, _, _, _⟩ := firstPass_spec hfp
  rcases reconcileStage_entries hrs pr hpr with h1 | ⟨pf, vals, vals', hfbc, hpr2, hlook, hrec⟩
  · rcases F2 pr h1 with h2 | ⟨tests, h3, h4⟩
    · simp at h2
    · rcases h4 with h5 | ⟨vals, h5, h6, h7⟩
      · rw [h5] at hvs
        cases hvs
      · rw [h5] at hvs
        have hv : vals = vs := Option.some.inj hvs
        subst hv
        exact ⟨h6, tests, h3, fun tn htn => Or.inl (h7 tn htn)⟩
  · have hv : some vals' = some vs := by
      rw [← hvs, hpr2]
    have hv2 : vals' = vs := Option.some.inj hv
    subst hv2
    have hmemvals : (pf, some vals) ∈ results := dictGet_mem hlook
    rcases F2 (pf, some vals) hmemvals with h2 | ⟨tests, h3, h4⟩
    · simp at h2
    · rcases h4 with h5 | ⟨vals0, h5, h6, h7⟩
      · cases h5
      · have hv3 : vals = vals0 := Option.some.inj h5
        subst hv3
        have hnd' := reconcileVals_nodup hrec h6
        refine ⟨hnd', tests, ?_, ?_⟩
        · have hp1 : pr.1 = pf := congrArg Prod.fst hpr2
          rw [hp1]
          exact h3
        · intro tn htn
          rcases reconcileVals_keys hrec tn htn with h8 | h8
          · exact Or.inl (h7 tn h8)
          · refine Or.inr ⟨?_, h8⟩
            rw [hpr2]
            exact hfbc

/-- The central pipeline-to-row bridge: a cell of a reconciled panel dict
is found verbatim in the generated row under its panel-prefixed column
name, provided the column naming of the condition is injective. -/
theorem pipeline_row_lookup {condition sex : String} {age : ℤ}
    {ls : List String} {profiles : List (String × CondProfile)}
    {r : RandOracle} {cp : CondProfile} {skips : List String}
    {results results2 : List (String × Option (List (String × Cell)))}
    {shared : List (String × ℚ)} {n : ℕ} {row : List (String × RVal)}
    {pn t : String} {c : Cell} {vals2 : List (String × Cell)}
    (hc : dictGet profiles condition = some cp)
    (hskips : panelsToSkip (cp.panels.map Prod.fst) r = .ok skips)
    (hfp : firstPass sex age ls r.draws cp.panels skips [] [] 0 =
      .ok (results, shared, n))
    (hrs : reconcileStage results (detectFbc (cp.panels.map Prod.fst))
      r.dirichlet = .ok results2)
    (hgen : generate_lab_results condition sex age ls profiles r = .ok row)
    (hpn2 : dictGet results2 pn = some (some vals2))
    (ht : dictGet vals2 t = some c)
    (htdp : t ≠ "differential_props")
    (hinj : colsInj cp.panels) :
    dictGet row (pn ++ " - " ++ t) = some (.cell c) := by
  have hrow : row = buildRow (buildCols cp.panels
      (detectFbc (cp.panels.map Prod.fst))) sex age condition results2 := by
    have := generate_eq hc hskips hfp hrs
    rw [this] at hgen
    exact (Except.ok.inj hgen).symm
  subst hrow
  have horigin := results2_entry_origin hfp hrs
  have hmem : (pn, some vals2) ∈ results2 := dictGet_mem hpn2
  have hself := horigin (pn, some vals2) hmem vals2 rfl
  have hndvals : (dictKeys vals2).Nodup := hself.1
  obtain ⟨tests, htests, hkeys⟩ := hself.2
  have htpair : (pn, t) ∈ allPairs cp.panels := by
    rcases hkeys t (mem_keys_of_dictGet ht) with h1 | h1
    · exact mem_allPairs_intro htests (Or.inl h1)
    · exact mem_allPairs_intro htests (Or.inr h1.2)
  have hnd2 : (dictKeys results2).Nodup := by
    obtain ⟨_, _, F3, _⟩ := firstPass_spec hfp
    exact reconcileStage_nodup hrs (F3 (by simp [dictKeys]))
  refine row_lookup_of_unique _ _ _ _ _ _ _ _ _ hmem (dictGet_mem ht) htdp
    ?_ ?_ ?_
  · intro tc htc h1
    have hm2 : (t, tc.2) ∈ vals2 := by
      rw [← h1]
      cases tc
      exact htc
    exact dict_val_unique hndvals hm2 ht
  · intro pr hpr vs hvs tc htc hne hcol
    have hpro := horigin pr hpr vs hvs
    obtain ⟨tests', htests', hkeys'⟩ := hpro.2
    have hpair : (pr.1, tc.1) ∈ allPairs cp.panels := by
      rcases hkeys' tc.1 (List.mem_map_of_mem Prod.fst htc) with h1 | h1
      · exact mem_allPairs_intro htests' (Or.inl h1)
      · exact mem_allPairs_intro htests' (Or.inr h1.2)
    have := hinj (pr.1, tc.1) hpair (pn, t) htpair hcol
    exact ⟨congrArg Prod.fst this, congrArg Prod.snd this⟩
  · intro pr hpr h1
    refine snd_eq_of_mem_nodup hnd2 hpr ?_
    rw [h1]
    exact hpn2

/-! ## Claim C3 -/

/-- C3 (amended): within one generate_lab_results call, a test name that
occurs in two non-omitted panels is sampled at most once and every later
occurrence reuses the first value, so under an injective column naming the
generated row holds one identical value at both locations — except for a
test bearing one of the ten differential output names, which the
reconciler may overwrite inside the FBC-like panel (excluded here by the
hypothesis on diffAddedKeys and refuted as stated by the counterexample). -/
theorem shared_test_value
    (condition sex : String) (age : ℤ) (ls : List String)
    (profiles : List (String × CondProfile)) (r : RandOracle)
    (cp : CondProfile) (skips : List String) (row : List (String × RVal))
    (p1 p2 t : String) (tests1 tests2 : List (String × EntryVal))
    (hc : dictGet profiles condition = some cp)
    (hskips : panelsToSkip (cp.panels.map Prod.fst) r = .ok skips)
    (hgen : generate_lab_results condition sex age ls profiles r = .ok row)
    (h1 : (p1, tests1) ∈ cp.panels) (h2 : (p2, tests2) ∈ cp.panels)
    (hs1 : p1 ∉ skips) (hs2 : p2 ∉ skips)
    (ht1 : t ∈ tests1.map Prod.fst) (ht2 : t ∈ tests2.map Prod.fst)
    (hdp : t ≠ "differential_props")
    (hdiff : t ∉ diffAddedKeys)
    (hnd : (cp.panels.map Prod.fst).Nodup)
    (hinj : colsInj cp.panels) :
    ∃ v : ℚ, dictGet row (p1 ++ " - " ++ t) = some (.cell (.val v)) ∧
      dictGet row (p2 ++ " - " ++ t) = some (.cell (.val v)) := by
  cases hfpE : firstPass sex age ls r.draws cp.panels skips [] [] 0 with
  | error e =>
    rw [generate_stage_err2 hc hskips hfpE] at hgen
    exact absurd hgen (by simp)
  | ok tri =>
    obtain ⟨results, shared, n⟩ := tri
    cases hrsE : reconcileStage results (detectFbc (cp.panels.map Prod.fst))
        r.dirichlet with
    | error e =>
      rw [generate_stage_err3 hc hskips hfpE hrsE] at hgen
      exact absurd hgen (by simp)
    | ok results2 =>
      obtain ⟨F1, F2, F3, F4, F5, F6, F7, F8⟩ := firstPass_spec hfpE
      obtain ⟨vals1, hv1, hpres1⟩ := F7 hnd p1 tests1 h1 hs1
      obtain ⟨vals2, hv2, hpres2⟩ := F7 hnd p2 tests2 h2 hs2
      rcases List.mem_map.1 ht1 with ⟨te1, hte1, htefst1⟩
      rcases List.mem_map.1 ht2 with ⟨te2, hte2, htefst2⟩
      have hsome1 := hpres1 te1 hte1
      have hsome2 := hpres2 te2 hte2
      rw [htefst1] at hsome1
      rw [htefst2] at hsome2
      obtain ⟨c1, hcl1⟩ := Option.isSome_iff_exists.1 hsome1
      obtain ⟨c2, hcl2⟩ := Option.isSome_iff_exists.1 hsome2
      have hJ := F6 (by
        intro pn vals t' c' hx ht' hc'
        simp [dictGet] at hx)
      obtain ⟨v1, hcv1, hshv1⟩ := hJ p1 vals1 t c1 hv1 hdp hcl1
      obtain ⟨v2, hcv2, hshv2⟩ := hJ p2 vals2 t c2 hv2 hdp hcl2
      have hvv : v1 = v2 := Option.some.inj (hshv1.symm.trans hshv2)
      subst hvv
      obtain ⟨vals1', hv1', hcase1⟩ := reconcileStage_lookup hrsE p1 vals1 hv1
      obtain ⟨vals2', hv2', hcase2⟩ := reconcileStage_lookup hrsE p2 vals2 hv2
      have hl1 : dictGet vals1' t = some (.val v1) := by
        rcases hcase1 with hcid | hrec
        · subst hcid
          rw [hcl1, hcv1]
        · rw [reconcileVals_preserve hrec hdiff hdp, hcl1, hcv1]
      have hl2 : dictGet vals2' t = some (.val v1) := by
        rcases hcase2 with hcid | hrec
        · subst hcid
          rw [hcl2, hcv2]
        · rw [reconcileVals_preserve hrec hdiff hdp, hcl2, hcv2]
      exact ⟨v1,
        pipeline_row_lookup hc hskips hfpE hrsE hgen hv1' hl1 hdp hinj,
        pipeline_row_lookup hc hskips hfpE hrsE hgen hv2' hl2 hdp hinj⟩

/-! ## buildCols membership lemmas -/

theorem mem_dedupAux (a : String) : ∀ l seen : List String,
    a ∈ dedupAux l seen ↔ a ∈ l ∧ a ∉ seen := by
  intro l
  induction l with
  | nil =>
    intro seen
    simp [dedupAux]
  | cons x xs ih =>
    intro seen
    unfold dedupAux
    by_cases hx : x ∈ seen
    · rw [if_pos hx, ih seen]
      constructor
      · rintro ⟨h1, h2⟩
        exact ⟨List.mem_cons_of_mem _ h1, h2⟩
      · rintro ⟨h1, h2⟩
        rcases List.mem_cons.1 h1 with h3 | h3
        · exact absurd (h3 ▸ hx) h2
        · exact ⟨h3, h2⟩
    · rw [if_neg hx]
      constructor
      · intro h1
        rcases List.mem_cons.1 h1 with h3 | h3
        · subst h3
          exact ⟨List.mem_cons_self _ _, hx⟩
        · rw [ih] at h3
          refine ⟨List.mem_cons_of_mem _ h3.1, ?_⟩
          intro hc
          exact h3.2 (List.mem_cons_of_mem _ hc)
      · rintro ⟨h1, h2⟩
        rcases List.mem_cons.1 h1 with h3 | h3
        · subst h3
          exact List.mem_cons_self _ _
        · by_cases hax : a = x
          · subst hax
            exact List.mem_cons_self _ _
          · refine List.mem_cons_of_mem _ ?_
            rw [ih]
            refine ⟨h3, ?_⟩
            intro hc
            rcases List.mem_cons.1 hc with h4 | h4
            · exact hax h4
            · exact h2 h4

theorem mem_dedupKeep {l : List String} {a : String} :
    a ∈ dedupKeep l ↔ a ∈ l := by
  unfold dedupKeep
  rw [mem_dedupAux]
  simp

theorem mem_buildCols_base (panels : List (String × List (String × EntryVal)))
    (fbc : Option String) :
    "Sex" ∈ buildCols panels fbc ∧ "Age" ∈ buildCols panels fbc ∧
      "Condition" ∈ buildCols panels fbc := by
  unfold buildCols
  refine ⟨mem_dedupKeep.2 ?_, mem_dedupKeep.2 ?_, mem_dedupKeep.2 ?_⟩ <;> simp

theorem mem_buildCols_test {panels : List (String × List (String × EntryVal))}
    {fbc : Option String} {pn tn : String} {tests : List (String × EntryVal)}
    (hp : (pn, tests) ∈ panels) (ht : tn ∈ tests.map Prod.fst)
    (hne : tn ≠ "differential_props") :
    (pn ++ " - " ++ tn) ∈ buildCols panels fbc := by
  unfold buildCols
  rw [mem_dedupKeep, List.mem_append]
  right
  rw [List.mem_flatMap]
  refine ⟨(pn, tests), hp, ?_⟩
  rw [List.mem_flatMap]
  rcases List.mem_map.1 ht with ⟨te, hte, htefst⟩
  refine ⟨te, hte, ?_⟩
  rw [htefst, if_neg hne]
  simp

theorem mem_buildCols_diff {panels : List (String × List (String × EntryVal))}
    {fbc : Option String} {pf : String} {tests : List (String × EntryVal)}
    (hp : (pf, tests) ∈ panels)
    (hdp : "differential_props" ∈ tests.map Prod.fst)
    (hfbc : fbc = some pf) {nm : String} (hnm : nm ∈ diffNames) :
    (pf ++ " - " ++ diffPctName nm) ∈ buildCols panels fbc ∧
      (pf ++ " - " ++ diffAbsName nm) ∈ buildCols panels fbc := by
  have hmem : ∀ s ∈ [pf ++ " - " ++ diffPctName nm, pf ++ " - " ++ diffAbsName nm],
      s ∈ buildCols panels fbc := by
    intro s hs
    unfold buildCols
    rw [mem_dedupKeep, List.mem_append]
    right
    rw [List.mem_flatMap]
    refine ⟨(pf, tests), hp, ?_⟩
    rw [List.mem_flatMap]
    rcases List.mem_map.1 hdp with ⟨te, hte, htefst⟩
    refine ⟨te, hte, ?_⟩
    rw [htefst, if_pos rfl, hfbc, if_pos rfl, List.mem_flatMap]
    exact ⟨nm, hnm, hs⟩
  exact ⟨hmem _ (by simp), hmem _ (by simp)⟩

/-! ## Claim C4 -/

/-- C4 (amended): for a fixed condition, every successfully generated row
has exactly the column set derived from the condition's full profile
declaration, independent of the seed, the patient context and the random
omission outcome — provided the FBC-like panel, when one is detected,
declares the differential_props key; without that key the reconciler can
append ten undeclared differential columns (see the counterexample). -/
theorem schema_stable
    (condition sex : String) (age : ℤ) (ls : List String)
    (profiles : List (String × CondProfile)) (r : RandOracle)
    (cp : CondProfile) (row : List (String × RVal))
    (hc : dictGet profiles condition = some cp)
    (hfbcdp : ∀ pf, detectFbc (cp.panels.map Prod.fst) = some pf →
      ∃ tests, (pf, tests) ∈ cp.panels ∧
        "differential_props" ∈ tests.map Prod.fst)
    (hgen : generate_lab_results condition sex age ls profiles r = .ok row) :
    row.map Prod.fst =
      buildCols cp.panels (detectFbc (cp.panels.map Prod.fst)) := by
  cases hskE : panelsToSkip (cp.panels.map Prod.fst) r with
  | error e =>
    rw [generate_stage_err1 hc hskE] at hgen
    exact absurd hgen (by simp)
  | ok skips =>
    cases hfpE : firstPass sex age ls r.draws cp.panels skips [] [] 0 with
    | error e =>
      rw [generate_stage_err2 hc hskE hfpE] at hgen
      exact absurd hgen (by simp)
    | ok tri =>
      obtain ⟨results, shared, n⟩ := tri
      cases hrsE : reconcileStage results
          (detectFbc (cp.panels.map Prod.fst)) r.dirichlet with
      | error e =>
        rw [generate_stage_err3 hc hskE hfpE hrsE] at hgen
        exact absurd hgen (by simp)
      | ok results2 =>
        have hrow : row = buildRow (buildCols cp.panels
            (detectFbc (cp.panels.map Prod.fst))) sex age condition results2 := by
          have := generate_eq hc hskE hfpE hrsE
          rw [this] at hgen
          exact (Except.ok.inj hgen).symm
        subst hrow
        obtain ⟨hS, hA, hC⟩ := mem_buildCols_base cp.panels
          (detectFbc (cp.panels.map Prod.fst))
        refine row_keys_eq _ sex age condition results2 hS hA hC ?_
        intro w hw
        rcases mem_flatWrites.1 hw with ⟨pn, vs, tc, hpr, htc, hne, rfl⟩
        have horg := results2_entry_origin hfpE hrsE (pn, some vs) hpr vs rfl
        obtain ⟨hndvs, tests, htests, hkeys⟩ := horg
        rcases hkeys tc.1 (List.mem_map_of_mem Prod.fst htc) with h1 | ⟨hfbc, h2⟩
        · exact mem_buildCols_test htests h1 hne
        · obtain ⟨tests', htests', hdpmem⟩ := hfbcdp pn hfbc
          rcases mem_diffAddedKeys.1 h2 with ⟨nm, hnm, hpct | habs⟩
          · rw [hpct]
            exact (mem_buildCols_diff htests' hdpmem hfbc hnm).1
          · rw [habs]
            exact (mem_buildCols_diff htests' hdpmem hfbc hnm).2

/-! ## Claim C2 -/

/-- C2: in a generated row whose detected FBC-like panel was present and
unskipped and whose located total count is a numeric value, the five
differential absolute-count cells of the row sum to the total count within
0.01 — in fact exactly, because the rounded counts are whole hundredths
and the residual correction restores the exact total. -/
theorem diff_counts_sum
    (condition sex : String) (age : ℤ) (ls : List String)
    (profiles : List (String × CondProfile)) (r : RandOracle)
    (cp : CondProfile) (skips : List String)
    (results : List (String × Option (List (String × Cell))))
    (shared : List (String × ℚ)) (n : ℕ)
    (pf wk : String) (vals : List (String × Cell)) (total : ℚ)
    (row : List (String × RVal))
    (hc : dictGet profiles condition = some cp)
    (hskips : panelsToSkip (cp.panels.map Prod.fst) r = .ok skips)
    (hfp : firstPass sex age ls r.draws cp.panels skips [] [] 0 =
      .ok (results, shared, n))
    (hfbc : detectFbc (cp.panels.map Prod.fst) = some pf)
    (hvals : dictGet results pf = some (some vals))
    (hwk : findWbcKey vals = some wk)
    (htot : dictGet vals wk = some (.val total))
    (hinj : colsInj cp.panels)
    (hgen : generate_lab_results condition sex age ls profiles r = .ok row) :
    ∃ a0 a1 a2 a3 a4 : ℚ,
      dictGet row (pf ++ " - " ++ diffAbsName "Neutrophils") =
        some (.cell (.val a0)) ∧
      dictGet row (pf ++ " - " ++ diffAbsName "Lymphocytes") =
        some (.cell (.val a1)) ∧
      dictGet row (pf ++ " - " ++ diffAbsName "Monocytes") =
        some (.cell (.val a2)) ∧
      dictGet row (pf ++ " - " ++ diffAbsName "Eosinophils") =
        some (.cell (.val a3)) ∧
      dictGet row (pf ++ " - " ++ diffAbsName "Basophils") =
        some (.cell (.val a4)) ∧
      |a0 + a1 + a2 + a3 + a4 - total| ≤ 1 / 100 ∧
      a0 + a1 + a2 + a3 + a4 = total := by
  obtain ⟨_, _, _, F4, _, _, _, _⟩ := firstPass_spec hfp
  have hcent : isCent total := by
    have hvmem : (pf, some vals) ∈ results := dictGet_mem hvals
    have hcall := F4 (by intro p hp; simp at hp)
      (by intro pr hpr; simp at hpr)
    exact hcall (pf, some vals) hvmem vals rfl (wk, .val total)
      (dictGet_mem htot) total rfl
  obtain ⟨out, a0, a1, a2, a3, a4, hrec, hl0, hl1, hl2, hl3, hl4, hsum⟩ :=
    @reconcileVals_diff_sum vals r.dirichlet wk total hwk htot hcent
  have hrs : reconcileStage results (detectFbc (cp.panels.map Prod.fst))
      r.dirichlet = .ok (dictSet results pf (some out)) := by
    rw [hfbc]
    simp only [reconcileStage, hvals, hrec]
  have hpn2 : dictGet (dictSet results pf (some out)) pf = some (some out) :=
    dictGet_dictSet_self _ _ _
  refine ⟨a0, a1, a2, a3, a4,
    pipeline_row_lookup hc hskips hfp hrs hgen hpn2 hl0 (by decide) hinj,
    pipeline_row_lookup hc hskips hfp hrs hgen hpn2 hl1 (by decide) hinj,
    pipeline_row_lookup hc hskips hfp hrs hgen hpn2 hl2 (by decide) hinj,
    pipeline_row_lookup hc hskips hfp hrs hgen hpn2 hl3 (by decide) hinj,
    pipeline_row_lookup hc hskips hfp hrs hgen hpn2 hl4 (by decide) hinj,
    ?_, hsum⟩
  rw [hsum, sub_self, abs_zero]
  norm_num

/-- Witness for C2 at a concrete single-FBC-panel profile: the three
differential counts 5, 2, 1, 1, 1 sum exactly to the sampled total 10. -/
theorem diff_counts_sum_witness :
    ∃ a0 a1 a2 a3 a4 : ℚ,
      dictGet [("Sex", RVal.str "other"), ("Age", RVal.int 50),
        ("Condition", RVal.str "c"),
        ("fbc - WBC", RVal.cell (.val 10)),
        ("fbc - Neutrophils (%)", RVal.cell (.val 50)),
        ("fbc - Neutrophils (×10^9/L)", RVal.cell (.val 5)),
        ("fbc - Lymphocytes (%)", RVal.cell (.val 20)),
        ("fbc - Lymphocytes (×10^9/L)", RVal.cell (.val 2)),
        ("fbc - Monocytes (%)", RVal.cell (.val 10)),
        ("fbc - Monocytes (×10^9/L)", RVal.cell (.val 1)),
        ("fbc - Eosinophils (%)", RVal.cell (.val 10)),
        ("fbc - Eosinophils (×10^9/L)", RVal.cell (.val 1)),
        ("fbc - Basophils (%)", RVal.cell (.val 10)),
        ("fbc - Basophils (×10^9/L)", RVal.cell (.val 1))]
        ("fbc" ++ " - " ++ diffAbsName "Neutrophils") = some (.cell (.val a0)) ∧
      dictGet [("Sex", RVal.str "other"), ("Age", RVal.int 50),
        ("Condition", RVal.str "c"),
        ("fbc - WBC", RVal.cell (.val 10)),
        ("fbc - Neutrophils (%)", RVal.cell (.val 50)),
        ("fbc - Neutrophils (×10^9/L)", RVal.cell (.val 5)),
        ("fbc - Lymphocytes (%)", RVal.cell (.val 20)),
        ("fbc - Lymphocytes (×10^9/L)", RVal.cell (.val 2)),
        ("fbc - Monocytes (%)", RVal.cell (.val 10)),
        ("fbc - Monocytes (×10^9/L)", RVal.cell (.val 1)),
        ("fbc - Eosinophils (%)", RVal.cell (.val 10)),
        ("fbc - Eosinophils (×10^9/L)", RVal.cell (.val 1)),
        ("fbc - Basophils (%)", RVal.cell (.val 10)),
        ("fbc - Basophils (×10^9/L)", RVal.cell (.val 1))]
        ("fbc" ++ " - " ++ diffAbsName "Lymphocytes") = some (.cell (.val a1)) ∧
      dictGet [("Sex", RVal.str "other"), ("Age", RVal.int 50),
        ("Condition", RVal.str "c"),
        ("fbc - WBC", RVal.cell (.val 10)),
        ("fbc - Neutrophils (%)", RVal.cell (.val 50)),
        ("fbc - Neutrophils (×10^9/L)", RVal.cell (.val 5)),
        ("fbc - Lymphocytes (%)", RVal.cell (.val 20)),
        ("fbc - Lymphocytes (×10^9/L)", RVal.cell (.val 2)),
        ("fbc - Monocytes (%)", RVal.cell (.val 10)),
        ("fbc - Monocytes (×10^9/L)", RVal.cell (.val 1)),
        ("fbc - Eosinophils (%)", RVal.cell (.val 10)),
        ("fbc - Eosinophils (×10^9/L)", RVal.cell (.val 1)),
        ("fbc - Basophils (%)", RVal.cell (.val 10)),
        ("fbc - Basophils (×10^9/L)", RVal.cell (.val 1))]
        ("fbc" ++ " - " ++ diffAbsName "Monocytes") = some (.cell (.val a2)) ∧
      dictGet [("Sex", RVal.str "other"), ("Age", RVal.int 50),
        ("Condition", RVal.str "c"),
        ("fbc - WBC", RVal.cell (.val 10)),
        ("fbc - Neutrophils (%)", RVal.cell (.val 50)),
        ("fbc - Neutrophils (×10^9/L)", RVal.cell (.val 5)),
        ("fbc - Lymphocytes (%)", RVal.cell (.val 20)),
        ("fbc - Lymphocytes (×10^9/L)", RVal.cell (.val 2)),
        ("fbc - Monocytes (%)", RVal.cell (.val 10)),
        ("fbc - Monocytes (×10^9/L)", RVal.cell (.val 1)),
        ("fbc - Eosinophils (%)", RVal.cell (.val 10)),
        ("fbc - Eosinophils (×10^9/L)", RVal.cell (.val 1)),
        ("fbc - Basophils (%)", RVal.cell (.val 10)),
        ("fbc - Basophils (×10^9/L)", RVal.cell (.val 1))]
        ("fbc" ++ " - " ++ diffAbsName "Eosinophils") = some (.cell (.val a3)) ∧
      dictGet [("Sex", RVal.str "other"), ("Age", RVal.int 50),
        ("Condition", RVal.str "c"),
        ("fbc - WBC", RVal.cell (.val 10)),
        ("fbc - Neutrophils (%)", RVal.cell (.val 50)),
        ("fbc - Neutrophils (×10^9/L)", RVal.cell (.val 5)),
        ("fbc - Lymphocytes (%)", RVal.cell (.val 20)),
        ("fbc - Lymphocytes (×10^9/L)", RVal.cell (.val 2)),
        ("fbc - Monocytes (%)", RVal.cell (.val 10)),
        ("fbc - Monocytes (×10^9/L)", RVal.cell (.val 1)),
        ("fbc - Eosinophils (%)", RVal.cell (.val 10)),
        ("fbc - Eosinophils (×10^9/L)", RVal.cell (.val 1)),
        ("fbc - Basophils (%)", RVal.cell (.val 10)),
        ("fbc - Basophils (×10^9/L)", RVal.cell (.val 1))]
        ("fbc" ++ " - " ++ diffAbsName "Basophils") = some (.cell (.val a4)) ∧
      |a0 + a1 + a2 + a3 + a4 - 10| ≤ 1 / 100 ∧
      a0 + a1 + a2 + a3 + a4 = 10 :=
  diff_counts_sum "c" "other" 50 []
    [("c", ⟨[("fbc", [("WBC", .test { mean := 10 }),
      ("differential_props", .metaVal (.dict
        { neutrophils := some (1 / 2), lymphocytes := some (1 / 5),
          monocytes := some (1 / 10), eosinophils := some (1 / 10),
          basophils := some (1 / 10) }))])]⟩)]
    { skipCoin := false, pickTwo := false, skipPick := [],
      draws := fun _ => 10,
      dirichlet := fun _ i => if i = 0 then 1 / 2
        else if i = 1 then 1 / 5 else 1 / 10 }
    ⟨[("fbc", [("WBC", .test { mean := 10 }),
      ("differential_props", .metaVal (.dict
        { neutrophils := some (1 / 2), lymphocytes := some (1 / 5),
          monocytes := some (1 / 10), eosinophils := some (1 / 10),
          basophils := some (1 / 10) }))])]⟩
    []
    [("fbc", some [("WBC", .val 10),
      ("differential_props", .metaCell (.dict
        { neutrophils := some (1 / 2), lymphocytes := some (1 / 5),
          monocytes := some (1 / 10), eosinophils := some (1 / 10),
          basophils := some (1 / 10) }))])]
    [("WBC", 10)] 1 "fbc" "WBC"
    [("WBC", .val 10),
      ("differential_props", .metaCell (.dict
        { neutrophils := some (1 / 2), lymphocytes := some (1 / 5),
          monocytes := some (1 / 10), eosinophils := some (1 / 10),
          basophils := some (1 / 10) }))]
    10
    [("Sex", RVal.str "other"), ("Age", RVal.int 50),
      ("Condition", RVal.str "c"),
      ("fbc - WBC", RVal.cell (.val 10)),
      ("fbc - Neutrophils (%)", RVal.cell (.val 50)),
      ("fbc - Neutrophils (×10^9/L)", RVal.cell (.val 5)),
      ("fbc - Lymphocytes (%)", RVal.cell (.val 20)),
      ("fbc - Lymphocytes (×10^9/L)", RVal.cell (.val 2)),
      ("fbc - Monocytes (%)", RVal.cell (.val 10)),
      ("fbc - Monocytes (×10^9/L)", RVal.cell (.val 1)),
      ("fbc - Eosinophils (%)", RVal.cell (.val 10)),
      ("fbc - Eosinophils (×10^9/L)", RVal.cell (.val 1)),
      ("fbc - Basophils (%)", RVal.cell (.val 10)),
      ("fbc - Basophils (×10^9/L)", RVal.cell (.val 1))]
    (by with_unfolding_all rfl) (by with_unfolding_all rfl)
    (by with_unfolding_all rfl) (by with_unfolding_all rfl)
    (by with_unfolding_all rfl) (by with_unfolding_all rfl)
    (by with_unfolding_all rfl) (by with_unfolding_all decide)
    (by with_unfolding_all rfl)

/-- C3 counterexample: the test name Neutrophils (×10^9/L) occurs in the
non-omitted panels FBC and P2, the first pass gives both the shared value
7, but the differential reconciler overwrites the FBC copy with the
differential count 5, so the generated row reads 5 and 7 at the two
locations of one test name. -/
theorem shared_test_value_cex :
    (generate_lab_results "c" "other" 50 []
      [("c", ⟨[("FBC", [("WBC", .test { mean := 10 }),
          ("Neutrophils (×10^9/L)", .test { mean := 5 })]),
        ("P2", [("Neutrophils (×10^9/L)", .test { mean := 5 })])]⟩)]
      { skipCoin := false, pickTwo := false, skipPick := [],
        draws := fun n => if n = 0 then 10 else 7,
        dirichlet := fun _ i => if i = 0 then 1 / 2
          else if i = 1 then 1 / 5 else 1 / 10 }).map
      (fun row => (dictGet row "FBC - Neutrophils (×10^9/L)",
        dictGet row "P2 - Neutrophils (×10^9/L)")) =
      .ok (some (.cell (.val 5)), some (.cell (.val 7))) := by
  with_unfolding_all decide

/-- Witness for the amended C3 at a concrete two-panel profile sharing the
test X. -/
theorem shared_test_value_witness :
    ∃ v : ℚ,
      dictGet [("Sex", RVal.str "other"), ("Age", RVal.int 50),
        ("Condition", RVal.str "c"), ("A - X", RVal.cell (.val 5)),
        ("B - X", RVal.cell (.val 5))] ("A" ++ " - " ++ "X") =
        some (.cell (.val v)) ∧
      dictGet [("Sex", RVal.str "other"), ("Age", RVal.int 50),
        ("Condition", RVal.str "c"), ("A - X", RVal.cell (.val 5)),
        ("B - X", RVal.cell (.val 5))] ("B" ++ " - " ++ "X") =
        some (.cell (.val v)) :=
  shared_test_value "c" "other" 50 []
    [("c", ⟨[("A", [("X", .test { mean := 5 })]),
      ("B", [("X", .test { mean := 5 })])]⟩)]
    { skipCoin := false, pickTwo := false, skipPick := [],
      draws := fun _ => 5, dirichlet := fun _ _ => 0 }
    ⟨[("A", [("X", .test { mean := 5 })]),
      ("B", [("X", .test { mean := 5 })])]⟩
    []
    [("Sex", RVal.str "other"), ("Age", RVal.int 50),
      ("Condition", RVal.str "c"), ("A - X", RVal.cell (.val 5)),
      ("B - X", RVal.cell (.val 5))]
    "A" "B" "X" [("X", .test { mean := 5 })] [("X", .test { mean := 5 })]
    (by with_unfolding_all decide) (by with_unfolding_all decide)
    (by with_unfolding_all decide) (by with_unfolding_all decide)
    (by with_unfolding_all decide) (by with_unfolding_all decide)
    (by with_unfolding_all decide) (by with_unfolding_all decide)
    (by with_unfolding_all decide) (by with_unfolding_all decide)
    (by with_unfolding_all decide) (by with_unfolding_all decide)
    (by with_unfolding_all decide)

/-- C4 counterexample: on a condition whose FBC-like panel lacks the
differential_props key, a run that samples the panel gains ten
differential columns that a run omitting the panel does not have, so the
column schema depends on the random omission outcome. -/
theorem schema_stable_cex :
    (generate_lab_results "c" "other" 50 []
      [("c", ⟨[("fbc", [("WBC", .test { mean := 10 })])]⟩)]
      { skipCoin := false, pickTwo := false, skipPick := [],
        draws := fun _ => 10,
        dirichlet := fun _ i => if i = 0 then 1 / 2
          else if i = 1 then 1 / 5 else 1 / 10 }).map (List.map Prod.fst) =
      .ok ["Sex", "Age", "Condition", "fbc - WBC", "fbc - Neutrophils (%)",
        "fbc - Neutrophils (×10^9/L)", "fbc - Lymphocytes (%)",
        "fbc - Lymphocytes (×10^9/L)", "fbc - Monocytes (%)",
        "fbc - Monocytes (×10^9/L)", "fbc - Eosinophils (%)",
        "fbc - Eosinophils (×10^9/L)", "fbc - Basophils (%)",
        "fbc - Basophils (×10^9/L)"] ∧
    (generate_lab_results "c" "other" 50 []
      [("c", ⟨[("fbc", [("WBC", .test { mean := 10 })])]⟩)]
      { skipCoin := true, pickTwo := false, skipPick := ["fbc"],
        draws := fun _ => 10,
        dirichlet := fun _ i => if i = 0 then 1 / 2
          else if i = 1 then 1 / 5 else 1 / 10 }).map (List.map Prod.fst) =
      .ok ["Sex", "Age", "Condition", "fbc - WBC"] := by
  constructor
  · with_unfolding_all decide
  · with_unfolding_all decide

/-- Witness for the amended C4 at a concrete single-panel profile. -/
theorem schema_stable_witness :
    ([("Sex", RVal.str "other"), ("Age", RVal.int 50),
      ("Condition", RVal.str "c"), ("p - X", RVal.cell (.val 5))] :
        List (String × RVal)).map Prod.fst =
      buildCols (CondProfile.panels ⟨[("p", [("X", .test { mean := 5 })])]⟩)
        (detectFbc ((CondProfile.panels
          ⟨[("p", [("X", .test { mean := 5 })])]⟩).map Prod.fst)) :=
  schema_stable "c" "other" 50 []
    [("c", ⟨[("p", [("X", .test { mean := 5 })])]⟩)]
    { skipCoin := false, pickTwo := false, skipPick := [],
      draws := fun _ => 5, dirichlet := fun _ _ => 0 }
    ⟨[("p", [("X", .test { mean := 5 })])]⟩
    [("Sex", RVal.str "other"), ("Age", RVal.int 50),
      ("Condition", RVal.str "c"), ("p - X", RVal.cell (.val 5))]
    (by with_unfolding_all decide)
    (fun pf hpf => Option.noConfusion
      ((by with_unfolding_all decide : detectFbc ((CondProfile.panels
        ⟨[("p", [("X", .test { mean := 5 })])]⟩).map Prod.fst) =
          none).symm.trans hpf))
    (by with_unfolding_all decide)

end Callistemon
